import Mathlib

/-!
# Verification of `clean_and_split.py` (BonnieVale data-cleanup scripts)

Shallow embedding of the data-cleanup pipeline in `src/clean_and_split.py`.
Python strings are modeled as `List Char`; Python dict registries are modeled
as explicit functions threaded through the computation; functions that can
raise are modeled with `Option`.  Regular-expression operations are embedded
as hand-rolled scanners that follow the backtracking semantics of the
specific patterns used by the source (each scanner's doc comment names the
pattern it implements).

Only ASCII-relevant behaviour of Python's `str` methods is modeled
(`\s`, `\w`, `.lower()`, `.upper()` restricted to ASCII), which is faithful
for the character classes the source's regexes and comparisons actually
distinguish.
-/

/-! ## Character classes (Python regex classes, ASCII) -/

/-- Python regex class `[0-9]` / `\d` (ASCII). -/
def isDigitChar (c : Char) : Bool := decide (48 ≤ c.toNat ∧ c.toNat ≤ 57)

/-- Python regex class `[A-Za-z]` (used by `slug_letters_two`'s
`re.sub(r"[^A-Za-z]", "", ...)`). -/
def isAsciiLetterChar (c : Char) : Bool :=
  decide ((65 ≤ c.toNat ∧ c.toNat ≤ 90) ∨ (97 ≤ c.toNat ∧ c.toNat ≤ 122))

/-- Python regex class `\s` (ASCII whitespace: space, tab, LF, VT, FF, CR). -/
def isSpaceChar (c : Char) : Bool :=
  decide (c = ' ' ∨ c = '\t' ∨ c = '\n' ∨ c.toNat = 11 ∨ c.toNat = 12 ∨ c = '\r')

/-- Python regex class `\w` (ASCII): letters, digits, underscore.  Used for
the word-boundary `\b` semantics of the source's patterns. -/
def isWordChar (c : Char) : Bool := isAsciiLetterChar c || isDigitChar c || c == '_'

theorem letter_not_digit {c : Char} (h : isAsciiLetterChar c = true) :
    isDigitChar c = false := by
  simp only [isAsciiLetterChar, decide_eq_true_eq] at h
  simp only [isDigitChar, decide_eq_false_iff_not]
  omega

/-- ASCII lowercasing of a single character (Python `str.lower`, restricted to
the `[A-Za-z]` characters that survive `slug_letters_two`'s filter). -/
def lowerChar (c : Char) : Char :=
  match c with
  | 'A' => 'a' | 'B' => 'b' | 'C' => 'c' | 'D' => 'd' | 'E' => 'e' | 'F' => 'f'
  | 'G' => 'g' | 'H' => 'h' | 'I' => 'i' | 'J' => 'j' | 'K' => 'k' | 'L' => 'l'
  | 'M' => 'm' | 'N' => 'n' | 'O' => 'o' | 'P' => 'p' | 'Q' => 'q' | 'R' => 'r'
  | 'S' => 's' | 'T' => 't' | 'U' => 'u' | 'V' => 'v' | 'W' => 'w' | 'X' => 'x'
  | 'Y' => 'y' | 'Z' => 'z' | c => c

/-- ASCII uppercasing of a single character (Python `str.upper`, used only to
compare strings against ASCII literals such as `"NA"`). -/
def upperChar (c : Char) : Char :=
  match c with
  | 'a' => 'A' | 'b' => 'B' | 'c' => 'C' | 'd' => 'D' | 'e' => 'E' | 'f' => 'F'
  | 'g' => 'G' | 'h' => 'H' | 'i' => 'I' | 'j' => 'J' | 'k' => 'K' | 'l' => 'L'
  | 'm' => 'M' | 'n' => 'N' | 'o' => 'O' | 'p' => 'P' | 'q' => 'Q' | 'r' => 'R'
  | 's' => 'S' | 't' => 'T' | 'u' => 'U' | 'v' => 'V' | 'w' => 'W' | 'x' => 'X'
  | 'y' => 'Y' | 'z' => 'Z' | c => c

theorem lowerChar_letter {c : Char} (h : isAsciiLetterChar c = true) :
    isAsciiLetterChar (lowerChar c) = true := by
  unfold lowerChar
  split <;> first | decide | exact h

/-! ## Decimal representation of naturals (Python `str(n)` for `n : Nat`) -/

/-- The decimal digit character for `d < 10`. -/
def digitChar : Nat → Char
  | 0 => '0' | 1 => '1' | 2 => '2' | 3 => '3' | 4 => '4'
  | 5 => '5' | 6 => '6' | 7 => '7' | 8 => '8' | _ => '9'

/-- Fuel-driven helper for `natDigits` (structural recursion so the kernel can
evaluate it). -/
def natDigitsAux : Nat → Nat → List Char
  | 0, _ => []
  | fuel + 1, n =>
    if n < 10 then [digitChar n] else natDigitsAux fuel (n / 10) ++ [digitChar (n % 10)]

theorem natDigitsAux_fuel (f1 f2 n : Nat) (h1 : n < f1) (h2 : n < f2) :
    natDigitsAux f1 n = natDigitsAux f2 n := by
  induction f1 generalizing f2 n with
  | zero => omega
  | succ f1 ih =>
    cases f2 with
    | zero => omega
    | succ f2 =>
      simp only [natDigitsAux]
      by_cases hn : n < 10
      · simp [hn]
      · rw [if_neg hn, if_neg hn]
        have hd : n / 10 < n := Nat.div_lt_self (by omega) (by omega)
        rw [ih f2 (n / 10) (by omega) (by omega)]

/-- Decimal representation of a natural number, most significant digit first
(the model of Python `str(n)` / f-string interpolation of a nonnegative int). -/
def natDigits (n : Nat) : List Char := natDigitsAux (n + 1) n

/-- The defining recursion of `natDigits`. -/
theorem natDigits_eq (n : Nat) :
    natDigits n =
      if n < 10 then [digitChar n] else natDigits (n / 10) ++ [digitChar (n % 10)] := by
  show natDigitsAux (n + 1) n = _
  rw [natDigitsAux]
  by_cases hn : n < 10
  · simp [hn]
  · rw [if_neg hn, if_neg hn]
    have hd : n / 10 < n := Nat.div_lt_self (by omega) (by omega)
    rw [natDigitsAux_fuel n (n / 10 + 1) (n / 10) (by omega) (Nat.lt_succ_self _)]
    rfl

example : natDigits 2024 = ['2', '0', '2', '4'] := by decide
example : natDigits 0 = ['0'] := by decide

theorem natDigits_ne_nil (n : Nat) : natDigits n ≠ [] := by
  rw [natDigits_eq]
  split <;> simp

theorem digitChar_isDigit {d : Nat} (h : d < 10) : isDigitChar (digitChar d) = true := by
  have key : ∀ a : Fin 10, isDigitChar (digitChar a.val) = true := by decide
  exact key ⟨d, h⟩

theorem digitChar_inj {a b : Nat} (ha : a < 10) (hb : b < 10)
    (h : digitChar a = digitChar b) : a = b := by
  have key : ∀ x y : Fin 10, digitChar x.val = digitChar y.val → x.val = y.val := by
    decide
  exact key ⟨a, ha⟩ ⟨b, hb⟩ h

theorem mem_natDigits_isDigit (n : Nat) : ∀ c ∈ natDigits n, isDigitChar c = true := by
  induction n using Nat.strong_induction_on with
  | _ n ih =>
    rw [natDigits_eq]
    by_cases hn : n < 10
    · rw [if_pos hn]
      intro c hc
      simp only [List.mem_singleton] at hc
      exact hc ▸ digitChar_isDigit hn
    · rw [if_neg hn]
      intro c hc
      rw [List.mem_append] at hc
      rcases hc with hc | hc
      · exact ih (n / 10) (Nat.div_lt_self (by omega) (by omega)) c hc
      · simp only [List.mem_singleton] at hc
        exact hc ▸ digitChar_isDigit (Nat.mod_lt _ (by omega))

theorem natDigits_inj : ∀ m n : Nat, natDigits m = natDigits n → m = n := by
  intro m
  induction m using Nat.strong_induction_on with
  | _ m ih =>
    intro n h
    rw [natDigits_eq m, natDigits_eq n] at h
    by_cases hm : m < 10 <;> by_cases hn : n < 10
    · rw [if_pos hm, if_pos hn] at h
      simp only [List.cons.injEq] at h
      exact digitChar_inj hm hn h.1
    · rw [if_pos hm, if_neg hn] at h
      have hlen := congrArg List.length h
      simp only [List.length_singleton, List.length_append] at hlen
      have h1 : natDigits (n / 10) ≠ [] := natDigits_ne_nil _
      rw [← List.length_pos_iff_ne_nil] at h1
      omega
    · rw [if_neg hm, if_pos hn] at h
      have hlen := congrArg List.length h
      simp only [List.length_singleton, List.length_append] at hlen
      have h1 : natDigits (m / 10) ≠ [] := natDigits_ne_nil _
      rw [← List.length_pos_iff_ne_nil] at h1
      omega
    · rw [if_neg hm, if_neg hn] at h
      have hsplit := List.append_inj' h (by simp)
      have hdiv : m / 10 = n / 10 :=
        ih (m / 10) (Nat.div_lt_self (by omega) (by omega)) _ hsplit.1
      have hmod : m % 10 = n % 10 := by
        have h2 := hsplit.2
        simp only [List.cons.injEq] at h2
        exact digitChar_inj (Nat.mod_lt _ (by omega)) (Nat.mod_lt _ (by omega)) h2.1
      omega

/-! ## Identifier Assigner — `slug_letters_two` and `build_student_id`
(`clean_and_split.py` lines 297–320) -/

/-- `slug_letters_two` (lines 297–305): keep only `[A-Za-z]` characters, take
the first two, lowercase.  The `unicodedata` NFKD accent-stripping step is
modeled as the identity map: it is the identity on ASCII text, and the
`[A-Za-z]` filter that follows it guarantees the output consists of ASCII
letters regardless of which accented characters were decomposed, which is the
only fact the downstream uniqueness argument uses. -/
def slug_letters_two (s : List Char) : List Char :=
  ((s.filter isAsciiLetterChar).take 2).map lowerChar

/-- The fallback base used by `build_student_id` when both slugs are empty:
`f"unk{year}r{row_index+1}"` (line 313). -/
def fbBase (year idx : Nat) : List Char :=
  ('u' :: 'n' :: 'k' :: natDigits year) ++ ('r' :: natDigits (idx + 1))

/-- The base key of `build_student_id` (lines 309–313):
`f"{n2}{s2}{year}"`, replaced by the fallback when both slugs are empty. -/
def rowBase (year : Nat) (name surname : List Char) (idx : Nat) : List Char :=
  let n2 := slug_letters_two name
  let s2 := slug_letters_two surname
  if n2 = [] ∧ s2 = [] then fbBase year idx
  else (n2 ++ s2) ++ natDigits year

/-- The identifier emitted for a base whose running count (number of earlier
occurrences) is `cnt` (lines 315–320): first occurrence returns the base,
later occurrences append `cnt+1`. -/
def genId (base : List Char) (cnt : Nat) : List Char :=
  if cnt = 0 then base else base ++ natDigits (cnt + 1)

/-- `build_student_id` (lines 308–320).  The mutable dict `unique_counts` is
modeled as a function that the caller threads through; the updated registry is
returned alongside the identifier. -/
def build_student_id (name surname : List Char) (year : Nat)
    (unique_counts : List Char → Nat) (row_index : Nat) :
    List Char × (List Char → Nat) :=
  let base := rowBase year name surname row_index
  let cnt := unique_counts base
  (genId base cnt, fun b => if b = base then cnt + 1 else unique_counts b)

/-- One run of the `main` loop's identifier generation (lines 507–519):
`id_counts` starts empty and is shared across all rows, `idx` is the 0-based
row ordinal. -/
def run_build_student_ids_aux (year : Nat) (counts : List Char → Nat) (idx : Nat) :
    List (List Char × List Char) → List (List Char)
  | [] => []
  | (n, s) :: rest =>
    let r := build_student_id n s year counts idx
    r.1 :: run_build_student_ids_aux year r.2 (idx + 1) rest

/-- The sequence of `Student_ID`s produced by one run over a list of
`(name, surname)` pairs with a fixed cohort year. -/
def run_build_student_ids (year : Nat) (pairs : List (List Char × List Char)) :
    List (List Char) :=
  run_build_student_ids_aux year (fun _ => 0) 0 pairs

example :
    run_build_student_ids 2024
      [("Anna".data, "Smith".data), ("Andrew".data, "Smyth".data),
       ("Anna".data, "Smith".data), ("".data, "".data)] =
      ["ansm2024".data, "ansm20242".data, "ansm20243".data, "unk2024r4".data] := by
  decide

/-! ### Uniqueness of the produced identifiers -/

/-- History-indexed restatement of the run: `hist` is the list of bases of the
rows already processed, and the registry value of a base is its count in
`hist`. -/
def idsFrom (year : Nat) (hist : List (List Char)) (idx : Nat) :
    List (List Char × List Char) → List (List Char)
  | [] => []
  | (n, s) :: rest =>
    let b := rowBase year n s idx
    genId b (hist.count b) :: idsFrom year (hist ++ [b]) (idx + 1) rest

theorem run_eq_idsFrom (year : Nat) :
    ∀ (pairs : List (List Char × List Char)) (counts : List Char → Nat)
      (idx : Nat) (hist : List (List Char)),
      (∀ b, counts b = hist.count b) →
      run_build_student_ids_aux year counts idx pairs = idsFrom year hist idx pairs := by
  intro pairs
  induction pairs with
  | nil => intro counts idx hist _; rfl
  | cons p rest ih =>
    intro counts idx hist hc
    obtain ⟨n, s⟩ := p
    simp only [run_build_student_ids_aux, idsFrom, build_student_id]
    apply congrArg₂ List.cons
    · rw [hc]
    · apply ih
      intro b
      by_cases hb : b = rowBase year n s idx
      · rw [if_pos hb, hc, hb, List.count_append]
        simp
      · rw [if_neg hb, hc, List.count_append]
        have hz : List.count b [rowBase year n s idx] = 0 := by
          rw [List.count_eq_zero]
          simp only [List.mem_singleton]
          exact hb
        omega

/-- A base is "letter-shaped" for `year`: a nonempty block of ASCII letters
followed by the decimal digits of `year`.  Every non-fallback base produced by
`rowBase` has this shape. -/
def AType (year : Nat) (b : List Char) : Prop :=
  ∃ L, L ≠ [] ∧ (∀ c ∈ L, isAsciiLetterChar c = true) ∧ b = L ++ natDigits year

theorem slug_letters (s : List Char) :
    ∀ c ∈ slug_letters_two s, isAsciiLetterChar c = true := by
  intro c hc
  simp only [slug_letters_two, List.mem_map] at hc
  obtain ⟨c', hc', rfl⟩ := hc
  have := List.mem_of_mem_take hc'
  exact lowerChar_letter (List.of_mem_filter this)

theorem rowBase_shape (year : Nat) (n s : List Char) (idx : Nat) :
    AType year (rowBase year n s idx) ∨ rowBase year n s idx = fbBase year idx := by
  unfold rowBase
  by_cases h : slug_letters_two n = [] ∧ slug_letters_two s = []
  · right; simp [h]
  · left
    simp only [h, if_false]
    refine ⟨slug_letters_two n ++ slug_letters_two s, ?_, ?_, rfl⟩
    · intro hnil
      rcases List.append_eq_nil.mp hnil with ⟨h1, h2⟩
      exact h ⟨h1, h2⟩
    · intro c hc
      rcases List.mem_append.mp hc with hc | hc
      · exact slug_letters n c hc
      · exact slug_letters s c hc

theorem letter_digit_absurd {c : Char} (h1 : isAsciiLetterChar c = true)
    (h2 : isDigitChar c = true) : False := by
  rw [letter_not_digit h1] at h2
  exact Bool.false_ne_true h2

/-- A string that decomposes as letters-then-digits does so uniquely. -/
theorem letters_digits_split :
    ∀ (l1 d1 l2 d2 : List Char),
      (∀ c ∈ l1, isAsciiLetterChar c = true) → (∀ c ∈ d1, isDigitChar c = true) →
      (∀ c ∈ l2, isAsciiLetterChar c = true) → (∀ c ∈ d2, isDigitChar c = true) →
      l1 ++ d1 = l2 ++ d2 → l1 = l2 ∧ d1 = d2 := by
  intro l1
  induction l1 with
  | nil =>
    intro d1 l2 d2 _ hd1 hl2 _ h
    cases l2 with
    | nil => exact ⟨rfl, by simpa using h⟩
    | cons c l2' =>
      exfalso
      simp only [List.nil_append, List.cons_append] at h
      have hc : c ∈ d1 := by rw [h]; exact List.mem_cons_self _ _
      exact letter_digit_absurd (hl2 c (List.mem_cons_self _ _)) (hd1 c hc)
  | cons c l1' ih =>
    intro d1 l2 d2 hl1 hd1 hl2 hd2 h
    cases l2 with
    | nil =>
      exfalso
      simp only [List.cons_append, List.nil_append] at h
      have hc : c ∈ d2 := by rw [← h]; exact List.mem_cons_self _ _
      exact letter_digit_absurd (hl1 c (List.mem_cons_self _ _)) (hd2 c hc)
    | cons c2 l2' =>
      simp only [List.cons_append, List.cons.injEq] at h
      obtain ⟨rfl, h2⟩ := h
      have hrec := ih d1 l2' d2 (fun x hx => hl1 x (List.mem_cons_of_mem _ hx)) hd1
        (fun x hx => hl2 x (List.mem_cons_of_mem _ hx)) hd2 h2
      exact ⟨by rw [hrec.1], hrec.2⟩

/-- `genId` of a letter-shaped base is itself letters-then-digits, with the
same letter block. -/
theorem genId_AType_decomp {year : Nat} {b : List Char} (h : AType year b) (c : Nat) :
    ∃ L D, L ≠ [] ∧ (∀ x ∈ L, isAsciiLetterChar x = true) ∧
      (∀ x ∈ D, isDigitChar x = true) ∧ genId b c = L ++ D ∧ b = L ++ natDigits year := by
  obtain ⟨L, hne, hL, rfl⟩ := h
  unfold genId
  by_cases hc : c = 0
  · exact ⟨L, natDigits year, hne, hL, mem_natDigits_isDigit year, by simp [hc], rfl⟩
  · refine ⟨L, natDigits year ++ natDigits (c + 1), hne, hL, ?_, by simp [hc], rfl⟩
    intro x hx
    rcases List.mem_append.mp hx with hx | hx
    · exact mem_natDigits_isDigit year x hx
    · exact mem_natDigits_isDigit (c + 1) x hx

theorem digit_not_letter {c : Char} (h : isDigitChar c = true) :
    isAsciiLetterChar c = false := by
  simp only [isDigitChar, decide_eq_true_eq] at h
  simp only [isAsciiLetterChar, decide_eq_false_iff_not]
  omega

theorem dropWhile_letters_digits :
    ∀ (l d : List Char),
      (∀ c ∈ l, isAsciiLetterChar c = true) → (∀ c ∈ d, isDigitChar c = true) →
      (l ++ d).dropWhile isAsciiLetterChar = d := by
  intro l
  induction l with
  | nil =>
    intro d _ hd
    simp only [List.nil_append]
    cases d with
    | nil => rfl
    | cons c t =>
      rw [List.dropWhile_cons]
      simp [digit_not_letter (hd c (List.mem_cons_self _ _))]
  | cons c t ih =>
    intro d hl hd
    rw [List.cons_append, List.dropWhile_cons]
    simp only [hl c (List.mem_cons_self _ _), if_true]
    exact ih d (fun x hx => hl x (List.mem_cons_of_mem _ hx)) hd

/-- The fallback base is not of letters-then-digits shape (it has the letter
`r` after the year digits). -/
theorem fbBase_ne_LD (year j : Nat) (l d : List Char)
    (hl : ∀ c ∈ l, isAsciiLetterChar c = true) (hd : ∀ c ∈ d, isDigitChar c = true) :
    fbBase year j ≠ l ++ d := by
  intro h
  have h1 : (fbBase year j).dropWhile isAsciiLetterChar = d := by
    rw [h]; exact dropWhile_letters_digits l d hl hd
  obtain ⟨c0, t0, hy⟩ : ∃ c0 t0, natDigits year = c0 :: t0 := by
    cases hy : natDigits year with
    | nil => exact absurd hy (natDigits_ne_nil year)
    | cons a b => exact ⟨a, b, rfl⟩
  have hc0 : isDigitChar c0 = true :=
    mem_natDigits_isDigit year c0 (by rw [hy]; exact List.mem_cons_self _ _)
  have h2 : (fbBase year j).dropWhile isAsciiLetterChar
      = natDigits year ++ ('r' :: natDigits (j + 1)) := by
    show (('u' :: 'n' :: 'k' :: natDigits year) ++
      ('r' :: natDigits (j + 1))).dropWhile isAsciiLetterChar = _
    rw [hy]
    simp only [List.cons_append, List.dropWhile_cons]
    rw [show isAsciiLetterChar 'u' = true from by decide,
      show isAsciiLetterChar 'n' = true from by decide,
      show isAsciiLetterChar 'k' = true from by decide,
      digit_not_letter hc0]
    simp
  rw [h2] at h1
  have hr : ('r' : Char) ∈ d := by
    rw [← h1]; exact List.mem_append_right _ (List.mem_cons_self _ _)
  exact absurd (hd 'r' hr) (by decide)

theorem fbBase_inj {year j1 j2 : Nat} (h : fbBase year j1 = fbBase year j2) :
    j1 = j2 := by
  unfold fbBase at h
  simp only [List.cons_append, List.cons.injEq, true_and] at h
  have h2 := List.append_cancel_left h
  simp only [List.cons.injEq, true_and] at h2
  have := natDigits_inj _ _ h2
  omega

theorem genId_zero (b : List Char) : genId b 0 = b := by simp [genId]

theorem genId_inj_count {b : List Char} {c1 c2 : Nat} (h : genId b c1 = genId b c2) :
    c1 = c2 := by
  unfold genId at h
  by_cases h1 : c1 = 0 <;> by_cases h2 : c2 = 0
  · omega
  · rw [if_pos h1, if_neg h2] at h
    have hlen := congrArg List.length h
    have hne : natDigits (c2 + 1) ≠ [] := natDigits_ne_nil _
    rw [← List.length_pos_iff_ne_nil] at hne
    rw [List.length_append] at hlen
    omega
  · rw [if_neg h1, if_pos h2] at h
    have hlen := congrArg List.length h
    have hne : natDigits (c1 + 1) ≠ [] := natDigits_ne_nil _
    rw [← List.length_pos_iff_ne_nil] at hne
    rw [List.length_append] at hlen
    omega
  · rw [if_neg h1, if_neg h2] at h
    have := natDigits_inj _ _ (List.append_cancel_left h)
    omega

theorem genId_AType_inj {year : Nat} {b1 b2 : List Char} {c1 c2 : Nat}
    (h1 : AType year b1) (h2 : AType year b2)
    (h : genId b1 c1 = genId b2 c2) : b1 = b2 := by
  obtain ⟨L1, D1, hne1, hl1, hd1, heq1, hb1⟩ := genId_AType_decomp h1 c1
  obtain ⟨L2, D2, hne2, hl2, hd2, heq2, hb2⟩ := genId_AType_decomp h2 c2
  rw [heq1, heq2] at h
  have hsp := letters_digits_split L1 _ L2 _ hl1 hd1 hl2 hd2 h
  rw [hb1, hb2, hsp.1]

theorem genId_AType_ne_fb {year : Nat} {b : List Char} (h : AType year b)
    (c j : Nat) : genId b c ≠ fbBase year j := by
  intro heq
  obtain ⟨L, D, hne, hl, hd, hgen, _⟩ := genId_AType_decomp h c
  exact fbBase_ne_LD year j L D hl hd (heq.symm.trans hgen)

/-- Invariant on the history of bases already consumed by a run: every base is
letter-shaped or a fallback base of an earlier row, and no fallback base
occurs twice. -/
def GoodHist (year idx : Nat) (hist : List (List Char)) : Prop :=
  (∀ b ∈ hist, AType year b ∨ ∃ j, j < idx ∧ b = fbBase year j) ∧
  (∀ j, hist.count (fbBase year j) ≤ 1)

theorem hist_count_fb_zero {year idx : Nat} {hist : List (List Char)}
    (hg : GoodHist year idx hist) : hist.count (fbBase year idx) = 0 := by
  rw [List.count_eq_zero]
  intro hmem
  rcases hg.1 _ hmem with ⟨L, _, hl, hbeq⟩ | ⟨j, hj, heq⟩
  · exact fbBase_ne_LD year idx L (natDigits year) hl (mem_natDigits_isDigit year) hbeq
  · have := fbBase_inj heq
    omega

theorem count_singleton_le_one (x y : List Char) : List.count x [y] ≤ 1 := by
  by_cases h : x = y <;> simp [List.count_singleton', h]

theorem GoodHist_step {year idx : Nat} {hist : List (List Char)}
    (hg : GoodHist year idx hist) (n s : List Char) :
    GoodHist year (idx + 1) (hist ++ [rowBase year n s idx]) := by
  constructor
  · intro b hb
    rcases List.mem_append.mp hb with hb | hb
    · rcases hg.1 b hb with h | ⟨j, hj, hfb⟩
      · exact Or.inl h
      · exact Or.inr ⟨j, by omega, hfb⟩
    · simp only [List.mem_singleton] at hb
      subst hb
      rcases rowBase_shape year n s idx with h | h
      · exact Or.inl h
      · exact Or.inr ⟨idx, by omega, h⟩
  · intro j
    rw [List.count_append]
    by_cases hj : fbBase year j = rowBase year n s idx
    · rcases rowBase_shape year n s idx with h | h
      · exfalso
        obtain ⟨L, _, hl, hbeq⟩ := h
        exact fbBase_ne_LD year j L (natDigits year) hl (mem_natDigits_isDigit year)
          (hj.trans hbeq)
      · have hji : j = idx := fbBase_inj (hj.trans h)
        subst hji
        have hz := hist_count_fb_zero hg
        have := count_singleton_le_one (fbBase year j) (rowBase year n s j)
        omega
    · have hz : List.count (fbBase year j) [rowBase year n s idx] = 0 := by
        rw [List.count_eq_zero]
        simp only [List.mem_singleton]
        exact hj
      have := hg.2 j
      omega

theorem genId_notMem :
    ∀ (pairs : List (List Char × List Char)) (year idx : Nat)
      (hist : List (List Char)) (b₀ : List Char) (c₀ : Nat),
      GoodHist year idx hist →
      (AType year b₀ ∨ ∃ j, j < idx ∧ b₀ = fbBase year j) →
      c₀ < hist.count b₀ →
      genId b₀ c₀ ∉ idsFrom year hist idx pairs := by
  intro pairs
  induction pairs with
  | nil => intro year idx hist b₀ c₀ _ _ _; simp [idsFrom]
  | cons p rest ih =>
    intro year idx hist b₀ c₀ hg hshape hcnt
    obtain ⟨n, s⟩ := p
    simp only [idsFrom, List.mem_cons, not_or]
    constructor
    · -- head: the id of row idx
      intro heq
      rcases hshape with hA | ⟨j₀, hj₀, hfb₀⟩
      · rcases rowBase_shape year n s idx with hA' | hfb'
        · have hbb := genId_AType_inj hA hA' heq
          subst hbb
          have := genId_inj_count heq
          omega
        · rw [hfb', hist_count_fb_zero hg, genId_zero] at heq
          exact genId_AType_ne_fb hA c₀ idx heq
      · have hc0 : c₀ = 0 := by
          have := hg.2 j₀
          rw [hfb₀] at hcnt
          omega
        subst hc0
        rw [genId_zero, hfb₀] at heq
        rcases rowBase_shape year n s idx with hA' | hfb'
        · obtain ⟨L', D', hne', hl', hd', hgen', _⟩ :=
            genId_AType_decomp hA' (hist.count (rowBase year n s idx))
          rw [hgen'] at heq
          exact fbBase_ne_LD year j₀ L' D' hl' hd' heq
        · rw [hfb', hist_count_fb_zero hg, genId_zero] at heq
          have := fbBase_inj heq
          omega
    · -- tail
      apply ih year (idx + 1) (hist ++ [rowBase year n s idx]) b₀ c₀
        (GoodHist_step hg n s)
      · rcases hshape with hA | ⟨j₀, hj₀, hfb₀⟩
        · exact Or.inl hA
        · exact Or.inr ⟨j₀, by omega, hfb₀⟩
      · rw [List.count_append]
        omega

theorem idsFrom_nodup :
    ∀ (pairs : List (List Char × List Char)) (year idx : Nat)
      (hist : List (List Char)),
      GoodHist year idx hist → (idsFrom year hist idx pairs).Nodup := by
  intro pairs
  induction pairs with
  | nil => intro year idx hist _; simp [idsFrom]
  | cons p rest ih =>
    intro year idx hist hg
    obtain ⟨n, s⟩ := p
    simp only [idsFrom]
    refine List.nodup_cons.mpr ⟨?_, ih year (idx + 1) _ (GoodHist_step hg n s)⟩
    apply genId_notMem rest year (idx + 1) (hist ++ [rowBase year n s idx])
      (rowBase year n s idx) (hist.count (rowBase year n s idx))
      (GoodHist_step hg n s)
    · rcases rowBase_shape year n s idx with h | h
      · exact Or.inl h
      · exact Or.inr ⟨idx, by omega, h⟩
    · rw [List.count_append]
      have : List.count (rowBase year n s idx) [rowBase year n s idx] = 1 := by
        simp [List.count_singleton']
      omega

/-- **C1.**  For every sequence of `(name, surname)` input pairs processed in
one run with a fixed cohort year, the `Student_ID`s produced by
`build_student_id` (fed the shared counter registry, starting empty, and the
0-based row ordinal) are pairwise distinct; and, the run being a pure function
of the pairs and the year, re-running on the same inputs with the same year
reproduces identical identifiers in the same order. -/
theorem C1_student_id_uniqueness_and_determinism
    (year : Nat) (pairs : List (List Char × List Char)) :
    (run_build_student_ids year pairs).Nodup ∧
      run_build_student_ids year pairs = run_build_student_ids year pairs := by
  constructor
  · rw [run_build_student_ids,
      run_eq_idsFrom year pairs (fun _ => 0) 0 [] (fun b => by simp)]
    exact idsFrom_nodup pairs year 0 [] ⟨by simp, by simp⟩
  · rfl

/-! ## National Identity Parser — `_luhn_sa_id_ok` and `parse_sa_id_fields`
(`clean_and_split.py` lines 199–267) -/

/-- Python `datetime.date` values (only the fields the source reads). -/
structure PyDate where
  year : Nat
  month : Nat
  day : Nat
deriving DecidableEq, Repr

/-- Gregorian leap year, as implemented by Python's `datetime`. -/
def isLeapYear (y : Nat) : Bool := decide (y % 4 = 0 ∧ (y % 100 ≠ 0 ∨ y % 400 = 0))

def daysInMonth (y m : Nat) : Nat :=
  if m = 1 ∨ m = 3 ∨ m = 5 ∨ m = 7 ∨ m = 8 ∨ m = 10 ∨ m = 12 then 31
  else if m = 4 ∨ m = 6 ∨ m = 9 ∨ m = 11 then 30
  else if m = 2 then (if isLeapYear y then 29 else 28)
  else 0

/-- Whether `date(y, m, d)` constructs without raising (year bounds 1..9999
are irrelevant here: the source only passes years 19xx/20xx). -/
def dateValid (y m d : Nat) : Bool :=
  decide (1 ≤ m ∧ m ≤ 12 ∧ 1 ≤ d) && decide (d ≤ daysInMonth y m)

/-- `int(ch)` for a decimal digit character. -/
def digitVal (c : Char) : Nat := c.toNat - 48

/-- Python `int(s)` for a string of decimal digits. -/
def digitsToNat (s : List Char) : Nat := s.foldl (fun acc c => 10 * acc + digitVal c) 0

/-- The result record of `parse_sa_id_fields`: the tuple
`(dob_iso, age_str, gender, valid, reason_if_invalid)` (line 217). -/
structure SaIdFacts where
  dob_iso : List Char
  age_str : List Char
  gender : List Char
  valid : Bool
  reason : List Char
deriving DecidableEq, Repr

/-- `_luhn_sa_id_ok` (lines 199–212). -/
def _luhn_sa_id_ok (digits : List Char) : Bool :=
  if digits.length = 13 ∧ digits.all isDigitChar = true then
    let a := ([0, 2, 4, 6, 8, 10].map (fun i => digitVal (digits.getD i '0'))).sum
    let even_concat := [1, 3, 5, 7, 9, 11].map (fun i => digits.getD i '0')
    let b_num := digitsToNat even_concat * 2
    let b := ((natDigits b_num).map digitVal).sum
    let c := a + b
    let d := (10 - c % 10) % 10
    decide (d = digitVal (digits.getD 12 '0'))
  else false

/-- Python tuple comparison `(a1, a2) < (b1, b2)` (strict lexicographic). -/
def tupleLt (a b : Nat × Nat) : Bool := decide (a.1 < b.1 ∨ (a.1 = b.1 ∧ a.2 < b.2))

/-- `try_century` (lines 236–244): build `date(century+yy, mm, dd)` (`none` on
the `except` path) and accept it only if the derived age lies in `[0, 120]`. -/
def try_century (today : PyDate) (yy mm dd century : Nat) : Option (PyDate × Int) :=
  if dateValid (century + yy) mm dd then
    let age : Int := (today.year : Int) - (century + yy : Nat) -
      (if tupleLt (today.month, today.day) (mm, dd) then 1 else 0)
    if 0 ≤ age ∧ age ≤ 120 then some (⟨century + yy, mm, dd⟩, age) else none
  else none

/-- Zero-padding used by `date.isoformat`. -/
def padDigits (w : Nat) (s : List Char) : List Char := List.replicate (w - s.length) '0' ++ s

/-- `date.isoformat()`: `YYYY-MM-DD`. -/
def isoDate (d : PyDate) : List Char :=
  padDigits 4 (natDigits d.year) ++ '-' :: (padDigits 2 (natDigits d.month) ++ '-' :: padDigits 2 (natDigits d.day))

/-- Python `str(i)` for an int. -/
def intRepr (i : Int) : List Char :=
  if i < 0 then '-' :: natDigits i.natAbs else natDigits i.toNat

/-- The tail of `parse_sa_id_fields` after century selection (lines 256–267):
checksum validation, then gender from digits 7–10 (`int(ssss)` cannot raise on
a digit slice, so the `except` arm of the gender block is dead code). -/
def saIdFinish (digits : List Char) (dob : PyDate) (age : Int) : SaIdFacts :=
  if _luhn_sa_id_ok digits then
    let gender_num := digitsToNat ((digits.drop 6).take 4)
    ⟨isoDate dob, intRepr age,
      (if gender_num ≥ 5000 then "Male".data else "Female".data), true, []⟩
  else ⟨[], [], [], false, "checksum".data⟩

/-- `parse_sa_id_fields` (lines 215–267).  The current date is a parameter
(`date.today()` in the source); strings are `List Char`.  The function is
total by construction: every failure path returns a tagged invalid record. -/
def parse_sa_id_fields (today : PyDate) (id_value : List Char) : SaIdFacts :=
  if id_value = [] then ⟨[], [], [], false, "empty".data⟩
  else if (id_value.filter isDigitChar).length ≠ 13 then ⟨[], [], [], false, "length".data⟩
  else
    let digits := id_value.filter isDigitChar
    let yy := digitsToNat (digits.take 2)
    let mm := digitsToNat ((digits.drop 2).take 2)
    let dd := digitsToNat ((digits.drop 4).take 2)
    match try_century today yy mm dd 1900, try_century today yy mm dd 2000 with
    | none, none => ⟨[], [], [], false, "invalid_date".data⟩
    | some a, none => saIdFinish digits a.1 a.2
    | none, some b => saIdFinish digits b.1 b.2
    | some a, some b =>
      if a.2 > 100 then saIdFinish digits b.1 b.2 else saIdFinish digits a.1 a.2

example :
    parse_sa_id_fields ⟨2025, 10, 12⟩ "8001015009087".data =
      ⟨"1980-01-01".data, "45".data, "Male".data, true, []⟩ := by decide

example :
    parse_sa_id_fields ⟨2025, 10, 12⟩ "8001015009088".data =
      ⟨[], [], [], false, "checksum".data⟩ := by decide

theorem saIdFinish_cases (digits : List Char) (dob : PyDate) (age : Int) :
    saIdFinish digits dob age = ⟨[], [], [], false, "checksum".data⟩ ∨
      (saIdFinish digits dob age).valid = true := by
  unfold saIdFinish
  split
  · right; rfl
  · left; rfl

theorem parse_sa_id_fields_cases (today : PyDate) (idv : List Char) :
    (∃ r, parse_sa_id_fields today idv = ⟨[], [], [], false, r⟩) ∨
      (parse_sa_id_fields today idv).valid = true := by
  simp only [parse_sa_id_fields]
  split
  · exact Or.inl ⟨_, rfl⟩
  · split
    · exact Or.inl ⟨_, rfl⟩
    · split
      · exact Or.inl ⟨_, rfl⟩
      · rcases saIdFinish_cases (idv.filter isDigitChar) _ _ with h | h
        · exact Or.inl ⟨_, h⟩
        · exact Or.inr h
      · rcases saIdFinish_cases (idv.filter isDigitChar) _ _ with h | h
        · exact Or.inl ⟨_, h⟩
        · exact Or.inr h
      · split
        · rcases saIdFinish_cases (idv.filter isDigitChar) _ _ with h | h
          · exact Or.inl ⟨_, h⟩
          · exact Or.inr h
        · rcases saIdFinish_cases (idv.filter isDigitChar) _ _ with h | h
          · exact Or.inl ⟨_, h⟩
          · exact Or.inr h

/-- **C3.**  `parse_sa_id_fields` never raises (it is a total function of its
inputs): an empty input yields `valid = false` with reason `"empty"`; a
nonempty input whose digits do not number exactly 13 yields `valid = false`
with reason `"length"`; and every invalid result has empty date-of-birth, age
and gender fields. -/
theorem C3_sa_id_error_handling (today : PyDate) (id_value : List Char) :
    (id_value = [] → parse_sa_id_fields today id_value = ⟨[], [], [], false, "empty".data⟩) ∧
    (id_value ≠ [] → (id_value.filter isDigitChar).length ≠ 13 →
      parse_sa_id_fields today id_value = ⟨[], [], [], false, "length".data⟩) ∧
    ((parse_sa_id_fields today id_value).valid = false →
      (parse_sa_id_fields today id_value).dob_iso = [] ∧
      (parse_sa_id_fields today id_value).age_str = [] ∧
      (parse_sa_id_fields today id_value).gender = []) := by
  refine ⟨fun h => by rw [parse_sa_id_fields, if_pos h], fun h1 h2 => by
    rw [parse_sa_id_fields, if_neg h1, if_pos h2], ?_⟩
  intro hv
  rcases parse_sa_id_fields_cases today id_value with ⟨r, hr⟩ | h
  · rw [hr]
    exact ⟨rfl, rfl, rfl⟩
  · rw [h] at hv
    exact absurd hv (by simp)

/-- Witness for C3: the theorem applied at concrete inputs. -/
theorem C3_sa_id_error_handling_witness :
    parse_sa_id_fields ⟨2025, 10, 12⟩ [] = ⟨[], [], [], false, "empty".data⟩ ∧
    parse_sa_id_fields ⟨2025, 10, 12⟩ "12a".data = ⟨[], [], [], false, "length".data⟩ :=
  ⟨(C3_sa_id_error_handling ⟨2025, 10, 12⟩ []).1 rfl,
   (C3_sa_id_error_handling ⟨2025, 10, 12⟩ "12a".data).2.1 (by decide) (by decide)⟩

/-! ## Text Normalizer — `normalize_phone` (`clean_and_split.py` lines 86–90) -/

/-- `normalize_phone` (lines 86–90): `re.sub(r"[\s\-]", "", raw)` followed by
`re.sub(r"[^\d\+]", "", s)`.  Note the second substitution keeps every `+`
wherever it occurs, not only a single leading one. -/
def normalize_phone (raw : List Char) : List Char :=
  let s := raw.filter (fun c => !(isSpaceChar c || c == '-'))
  s.filter (fun c => isDigitChar c || c == '+')

/-- Modelled from the spec (§3 ContactTriple, §4.2 Canonicalization): a
canonicalized phone string is "digits, optional leading `+`" — decimal digits
preceded by at most one leading plus and containing no other characters. -/
def specPhoneShape (s : List Char) : Bool :=
  match s with
  | '+' :: t => t.all isDigitChar
  | _ => s.all isDigitChar

/-- **C8** (code bug).  The spec and the source's own comment
(`# Keep only leading + and digits`, line 88) require at most a single leading
`+` in the canonicalized output, but the regex `[^\d\+]` keeps every plus:
on `"082+555 1212"` the interior plus survives, so the output is not of the
documented shape. -/
theorem C8_normalize_phone_keeps_interior_plus :
    normalize_phone "082+555 1212".data = "082+5551212".data ∧
      specPhoneShape (normalize_phone "082+555 1212".data) = false := by
  decide

/-! ## Star-rating normalizer — `stars_to_number`
(`clean_and_split.py` lines 585–600, nested in `main`) -/

/-- `re.search(r"\d+", s)`: the leftmost maximal run of decimal digits,
`none` when `s` has no digit. -/
def firstDigitRun : List Char → Option (List Char)
  | [] => none
  | c :: t => if isDigitChar c then some (c :: t.takeWhile isDigitChar) else firstDigitRun t

/-- Python `str.strip()` (ASCII whitespace). -/
def stripWs (s : List Char) : List Char :=
  ((s.dropWhile isSpaceChar).reverse.dropWhile isSpaceChar).reverse

/-- `stars_to_number` (lines 585–600): first embedded digit run if any, else
the count of `'★'` glyphs if positive, else the empty string (the `N/A`
marker test and the fall-through both return `""`). -/
def stars_to_number (val : List Char) : List Char :=
  if val = [] then []
  else
    match firstDigitRun val with
    | some m => m
    | none =>
      let count := val.count '★'
      if count > 0 then natDigits count
      else
        if (stripWs val).map upperChar = "N/A".data ∨
            (stripWs val).map upperChar = "#N/A".data ∨
            (stripWs val).map upperChar = "NA".data then []
        else []

theorem firstDigitRun_none {s : List Char} (h : ∀ c ∈ s, isDigitChar c = false) :
    firstDigitRun s = none := by
  induction s with
  | nil => rfl
  | cons c t ih =>
    rw [firstDigitRun, if_neg]
    · exact ih fun x hx => h x (List.mem_cons_of_mem _ hx)
    · simp [h c (List.mem_cons_self _ _)]

theorem firstDigitRun_digits {s m : List Char} (h : firstDigitRun s = some m) :
    m ≠ [] ∧ ∀ c ∈ m, isDigitChar c = true := by
  induction s with
  | nil => cases h
  | cons c t ih =>
    rw [firstDigitRun] at h
    by_cases hc : isDigitChar c = true
    · rw [if_pos hc] at h
      injection h with h
      subst h
      refine ⟨by simp, ?_⟩
      intro x hx
      rcases List.mem_cons.mp hx with rfl | hx
      · exact hc
      · exact List.mem_takeWhile_imp hx
    · rw [if_neg hc] at h
      exact ih h

/-- **C10.**  `stars_to_number` returns the empty string on every value with
no decimal digit and no `'★'` glyph (recognized not-applicable marker or not),
and on every value it returns either a nonempty run of decimal digits or the
empty string — so the output `"ro"` field is always a digit run or empty. -/
theorem C10_stars_to_number_shape (val : List Char) :
    ((∀ c ∈ val, isDigitChar c = false) → val.count '★' = 0 →
      stars_to_number val = []) ∧
    (stars_to_number val = [] ∨
      (stars_to_number val ≠ [] ∧ ∀ c ∈ stars_to_number val, isDigitChar c = true)) := by
  constructor
  · intro hnd hns
    unfold stars_to_number
    split
    · rfl
    · rw [firstDigitRun_none hnd]
      simp only [hns]
      norm_num
  · unfold stars_to_number
    split
    · exact Or.inl rfl
    · cases hr : firstDigitRun val with
      | some m =>
        simp only [hr]
        exact Or.inr (firstDigitRun_digits hr)
      | none =>
        simp only [hr]
        split
        · exact Or.inr ⟨natDigits_ne_nil _, mem_natDigits_isDigit _⟩
        · split <;> exact Or.inl rfl

/-- Witness for C10: a value that is arbitrary text (not an `N/A` marker),
with no digit and no star, maps to the empty string. -/
theorem C10_stars_to_number_shape_witness :
    stars_to_number "odd text!".data = [] :=
  (C10_stars_to_number_shape "odd text!".data).1 (by decide) (by decide)

/-! ## Header Reconciler — `read_csv_with_multiline`
(`clean_and_split.py` lines 30–83)

The `csv` module is external I/O: the model takes the already-parsed records
(a list of rows, each a list of cell strings).  The two `next(reader)` calls
are modeled with `Option`: an empty input hits the `except StopIteration`
handler and returns `([], [], [])` (lines 37–40), while a one-row input makes
the unguarded second `next` (line 41) raise — modeled as `none`. -/

/-- Word splitter for `str.split()` (accumulator-based so the kernel can
evaluate it). -/
def wordsWsAux : List Char → List Char → List (List Char)
  | [], acc => if acc = [] then [] else [acc.reverse]
  | c :: t, acc =>
    if isSpaceChar c then
      if acc = [] then wordsWsAux t [] else acc.reverse :: wordsWsAux t []
    else wordsWsAux t (c :: acc)

/-- Python `s.split()` (split on whitespace runs, no empty words). -/
def wordsWs (s : List Char) : List (List Char) := wordsWsAux s []

/-- `" ".join(ws)`. -/
def joinSpace : List (List Char) → List Char
  | [] => []
  | [w] => w
  | w :: ws => w ++ ' ' :: joinSpace ws

/-- Header-cell cleaning (lines 48, 54):
`" ".join(str(h).replace("\r", " ").replace("\n", " ").strip().split())`.
The `replace`/`strip` steps are absorbed by `split()`, which already treats
`\r` and `\n` as whitespace and drops leading/trailing runs. -/
def cleanCell (s : List Char) : List Char := joinSpace (wordsWs s)

/-- The blank-cell fallback (lines 50–58): clean each detail-header cell and
substitute the cleaned super-header label when the cell is blank. -/
def reconciledNames (super_header_raw header_raw : List (List Char)) : List (List Char) :=
  let cleaned_super := super_header_raw.map cleanCell
  (List.range header_raw.length).map (fun i =>
    let v := cleanCell (header_raw.getD i [])
    if v = [] ∧ i < cleaned_super.length then cleaned_super.getD i [] else v)

/-- The dict key used by the uniquification loop: `cleaned_header[i] or "Unnamed"`. -/
def uKey (h : List Char) : List Char := if h = [] then "Unnamed".data else h

/-- The name emitted for a key whose running count is `cnt`
(lines 64–67: unsuffixed first, `f"{val}_{count+1}"` afterwards). -/
def uOut (key : List Char) (cnt : Nat) : List Char :=
  if cnt = 0 then key else key ++ '_' :: natDigits (cnt + 1)

/-- The uniquification loop (lines 62–69) over the first `n-3` names, with the
`seen` dict as a threaded function. -/
def uniquifyAux (seen : List Char → Nat) : List (List Char) → List (List Char)
  | [] => []
  | h :: t =>
    let key := uKey h
    uOut key (seen key) :: uniquifyAux (fun k => if k = key then seen key + 1 else seen k) t

/-- Lines 59–69: uniquify all but the last three names. -/
def uniquifyHeaders (names : List (List Char)) : List (List Char) :=
  uniquifyAux (fun _ => 0) (names.take (names.length - 3)) ++ names.drop (names.length - 3)

/-- Lines 70–72: force the last three column names to `R1`, `R2`, `R3`. -/
def forceLastThree (names : List (List Char)) : List (List Char) :=
  if names.length ≥ 3 then
    names.take (names.length - 3) ++ ["R1".data, "R2".data, "R3".data]
  else names

/-- Lines 75–82: zip a data row into a dict keyed by the reconciled headers
(pad/truncate handled by `getD`; on duplicate header names the later column
wins, as in a Python dict comprehension). -/
def pyDictRow (hdr : List (List Char)) (row : List (List Char)) :
    List Char → List Char :=
  (List.range hdr.length).foldl
    (fun f i => fun k => if k = hdr.getD i [] then row.getD i [] else f k)
    (fun _ => [])

/-- `read_csv_with_multiline` (lines 30–83), file I/O and CSV quoting handled
by the external `csv` module; see the section comment for the `Option`. -/
def read_csv_with_multiline :
    List (List (List Char)) →
      Option (List (List Char) × List (List Char) × List (List Char → List Char))
  | [] => some ([], [], [])
  | [_] => none
  | sup :: hdr :: rest =>
    let cleaned_super := sup.map cleanCell
    let cleaned_header := forceLastThree (uniquifyHeaders (reconciledNames sup hdr))
    some (cleaned_header, cleaned_super, rest.map (pyDictRow cleaned_header))

/-- **C5** (code bug).  The claim says every input with fewer than two rows
yields an empty plan and no rows without error; the code only handles the
zero-row case (the `try` wraps the first `next` but not the second, line 41),
so a one-row input raises `StopIteration` instead. -/
theorem C5_read_csv_short_input_behaviour :
    read_csv_with_multiline [] = some ([], [], []) ∧
      read_csv_with_multiline [["x".data]] = none :=
  ⟨rfl, rfl⟩

/-- **C4** (counterexample).  With detail headers `A, A_2, A, x, y, z` the
uniquification renames the third column to `A_2`, which collides with the
literal second header: the reconciled names before the three placeholder
columns are not pairwise distinct. -/
theorem C4_header_uniqueness_counterexample :
    ∃ headers supers rows,
      read_csv_with_multiline
          [[[], [], [], [], [], []],
           ["A".data, "A_2".data, "A".data, "x".data, "y".data, "z".data]] =
        some (headers, supers, rows) ∧
        ¬ (headers.take (headers.length - 3)).Nodup := by
  refine ⟨_, _, _, rfl, ?_⟩
  decide

/-! ### Uniqueness of the uniquified header names (underscore-free inputs) -/

theorem digit_ne_underscore {c : Char} (h : isDigitChar c = true) : c ≠ '_' := by
  simp only [isDigitChar, decide_eq_true_eq] at h
  intro hc
  subst hc
  simp at h

theorem sep_split :
    ∀ (l1 d1 l2 d2 : List Char),
      ('_' : Char) ∉ l1 → ('_' : Char) ∉ l2 →
      l1 ++ '_' :: d1 = l2 ++ '_' :: d2 → l1 = l2 ∧ d1 = d2 := by
  intro l1
  induction l1 with
  | nil =>
    intro d1 l2 d2 _ hl2 h
    cases l2 with
    | nil => exact ⟨rfl, by simpa using h⟩
    | cons c l2' =>
      exfalso
      simp only [List.nil_append, List.cons_append, List.cons.injEq] at h
      exact hl2 (h.1 ▸ List.mem_cons_self _ _)
  | cons c l1' ih =>
    intro d1 l2 d2 hl1 hl2 h
    cases l2 with
    | nil =>
      exfalso
      simp only [List.cons_append, List.nil_append, List.cons.injEq] at h
      exact hl1 (h.1 ▸ List.mem_cons_self _ _)
    | cons c2 l2' =>
      simp only [List.cons_append, List.cons.injEq] at h
      obtain ⟨rfl, h2⟩ := h
      have hrec := ih d1 l2' d2 (fun hx => hl1 (List.mem_cons_of_mem _ hx))
        (fun hx => hl2 (List.mem_cons_of_mem _ hx)) h2
      exact ⟨by rw [hrec.1], hrec.2⟩

theorem uOut_inj {k1 k2 : List Char} {c1 c2 : Nat}
    (h1 : ('_' : Char) ∉ k1) (h2 : ('_' : Char) ∉ k2)
    (h : uOut k1 c1 = uOut k2 c2) : k1 = k2 ∧ c1 = c2 := by
  unfold uOut at h
  by_cases hc1 : c1 = 0 <;> by_cases hc2 : c2 = 0
  · rw [if_pos hc1, if_pos hc2] at h
    exact ⟨h, by omega⟩
  · exfalso
    rw [if_pos hc1, if_neg hc2] at h
    exact h1 (h ▸ List.mem_append_right _ (List.mem_cons_self _ _))
  · exfalso
    rw [if_neg hc1, if_pos hc2] at h
    exact h2 (h ▸ List.mem_append_right _ (List.mem_cons_self _ _))
  · rw [if_neg hc1, if_neg hc2] at h
    have hsp := sep_split k1 _ k2 _ h1 h2 h
    have := natDigits_inj _ _ hsp.2
    exact ⟨hsp.1, by omega⟩

theorem uKey_no_underscore {h : List Char} (hnu : ('_' : Char) ∉ h) :
    ('_' : Char) ∉ uKey h := by
  unfold uKey
  split
  · decide
  · exact hnu

/-- History-indexed restatement of `uniquifyAux`. -/
def uFrom (hist : List (List Char)) : List (List Char) → List (List Char)
  | [] => []
  | h :: t => uOut (uKey h) (hist.count (uKey h)) :: uFrom (hist ++ [uKey h]) t

theorem uniquifyAux_eq_uFrom :
    ∀ (names : List (List Char)) (seen : List Char → Nat) (hist : List (List Char)),
      (∀ k, seen k = hist.count k) →
      uniquifyAux seen names = uFrom hist names := by
  intro names
  induction names with
  | nil => intro seen hist _; rfl
  | cons h t ih =>
    intro seen hist hs
    simp only [uniquifyAux, uFrom]
    apply congrArg₂ List.cons
    · rw [hs]
    · apply ih
      intro k
      by_cases hk : k = uKey h
      · rw [if_pos hk, hs, hk, List.count_append]
        simp
      · rw [if_neg hk, hs, List.count_append]
        have hz : List.count k [uKey h] = 0 := by
          rw [List.count_eq_zero]
          simp only [List.mem_singleton]
          exact hk
        omega

theorem uOut_notMem :
    ∀ (names : List (List Char)) (hist : List (List Char)) (k₀ : List Char) (c₀ : Nat),
      (∀ h ∈ names, ('_' : Char) ∉ uKey h) →
      ('_' : Char) ∉ k₀ →
      c₀ < hist.count k₀ →
      uOut k₀ c₀ ∉ uFrom hist names := by
  intro names
  induction names with
  | nil => intro hist k₀ c₀ _ _ _; simp [uFrom]
  | cons h t ih =>
    intro hist k₀ c₀ hnames hk₀ hcnt
    simp only [uFrom, List.mem_cons, not_or]
    constructor
    · intro heq
      have hinj := uOut_inj hk₀ (hnames h (List.mem_cons_self _ _)) heq
      rw [hinj.1] at hcnt
      omega
    · apply ih (hist ++ [uKey h]) k₀ c₀
        (fun x hx => hnames x (List.mem_cons_of_mem _ hx)) hk₀
      rw [List.count_append]
      omega

theorem uFrom_nodup :
    ∀ (names : List (List Char)) (hist : List (List Char)),
      (∀ h ∈ names, ('_' : Char) ∉ uKey h) →
      (uFrom hist names).Nodup := by
  intro names
  induction names with
  | nil => intro hist _; simp [uFrom]
  | cons h t ih =>
    intro hist hnames
    simp only [uFrom]
    refine List.nodup_cons.mpr
      ⟨?_, ih _ (fun x hx => hnames x (List.mem_cons_of_mem _ hx))⟩
    apply uOut_notMem t (hist ++ [uKey h]) (uKey h) (hist.count (uKey h))
      (fun x hx => hnames x (List.mem_cons_of_mem _ hx))
      (hnames h (List.mem_cons_self _ _))
    rw [List.count_append]
    simp

theorem uniquifyAux_length (seen : List Char → Nat) (names : List (List Char)) :
    (uniquifyAux seen names).length = names.length := by
  induction names generalizing seen with
  | nil => rfl
  | cons h t ih => simp only [uniquifyAux, List.length_cons, ih]

/-- **C4** (amended).  Provided no reconciled (cleaned, blank-substituted)
column name among all but the last three contains an underscore, the header
list returned by `read_csv_with_multiline` has pairwise-distinct names among
all but the last three columns (each repeated name getting the incrementing
`_2`, `_3`, … suffix of `uOut`, computed left-to-right).  Without that
proviso the claim is false (see the counterexample: a literal name `A_2`
colliding with the suffixed rename of a duplicated `A`). -/
theorem C4_header_uniqueness_amended (sup hdr : List (List Char))
    (rest : List (List (List Char)))
    (hnu : ∀ name ∈ (reconciledNames sup hdr).take
      ((reconciledNames sup hdr).length - 3), ('_' : Char) ∉ name) :
    ∃ headers supers rows,
      read_csv_with_multiline (sup :: hdr :: rest) = some (headers, supers, rows) ∧
        (headers.take (headers.length - 3)).Nodup := by
  refine ⟨_, _, _, rfl, ?_⟩
  have hlen3 : (uniquifyAux (fun _ => 0)
      ((reconciledNames sup hdr).take ((reconciledNames sup hdr).length - 3))).length
      = ((reconciledNames sup hdr).take ((reconciledNames sup hdr).length - 3)).length :=
    uniquifyAux_length _ _
  have hnodup : (uniquifyAux (fun _ => 0)
      ((reconciledNames sup hdr).take ((reconciledNames sup hdr).length - 3))).Nodup := by
    rw [uniquifyAux_eq_uFrom _ (fun _ => 0) [] (fun k => by simp)]
    exact uFrom_nodup _ [] (fun h hh => uKey_no_underscore (hnu h hh))
  -- Now reduce the goal to `hnodup` by computing the take of the result.
  set base := reconciledNames sup hdr with hbase
  by_cases hb3 : base.length ≥ 3
  · have hulen : (uniquifyHeaders base).length = base.length := by
      unfold uniquifyHeaders
      rw [List.length_append, uniquifyAux_length, List.length_take, List.length_drop]
      omega
    have hflen : (forceLastThree (uniquifyHeaders base)).length = base.length := by
      unfold forceLastThree
      rw [if_pos (by omega)]
      rw [List.length_append, List.length_take]
      simp only [List.length_cons, List.length_nil]
      omega
    rw [hflen]
    unfold forceLastThree
    rw [if_pos (by omega), hulen]
    have htake1 : ((uniquifyHeaders base).take (base.length - 3) ++
        ["R1".data, "R2".data, "R3".data]).take (base.length - 3) =
        (uniquifyHeaders base).take (base.length - 3) := by
      rw [List.take_append_of_le_length]
      · rw [List.take_take]
        congr 1
        omega
      · rw [List.length_take, hulen]
        omega
    rw [htake1]
    unfold uniquifyHeaders
    rw [List.take_append_of_le_length]
    · rw [List.take_of_length_le]
      · exact hnodup
      · rw [hlen3, List.length_take]
        omega
    · rw [hlen3, List.length_take]
      omega
  · have hulen : (uniquifyHeaders base).length = base.length := by
      unfold uniquifyHeaders
      rw [List.length_append, uniquifyAux_length, List.length_take, List.length_drop]
      omega
    have : (forceLastThree (uniquifyHeaders base)).length < 3 := by
      unfold forceLastThree
      rw [if_neg (by omega)]
      omega
    rw [List.take_eq_nil_iff.mpr]
    · exact List.nodup_nil
    · omega

/-- Witness for C4 (amended) at a concrete input with duplicated,
underscore-free names. -/
theorem C4_header_uniqueness_amended_witness :
    ∃ headers supers rows,
      read_csv_with_multiline
          [[[], [], [], [], [], []],
           ["A".data, "B".data, "A".data, "x".data, "y".data, "z".data]] =
        some (headers, supers, rows) ∧
        (headers.take (headers.length - 3)).Nodup :=
  C4_header_uniqueness_amended _ _ _ (by decide)

/-! ## Contact Block Extractor — `parse_contact_field`
(`clean_and_split.py` lines 93–134) -/

/-- Character class `[\d\s\-]`, the repeated body of
`RE_PHONE = \+?\d[\d\s\-]{7,}\d` (line 15). -/
def isPhoneClassChar (c : Char) : Bool := isDigitChar c || isSpaceChar c || c == '-'

/-- The greedy `{7,}` of `RE_PHONE` with its final `\d`: the largest index
`k ≥ 7` of `run` holding a digit (the engine backtracks from the longest
class run until the next character is a digit). -/
def lastDigitIdxFrom7 (run : List Char) : Option Nat :=
  ((List.range run.length).filter
    (fun k => decide (7 ≤ k) && isDigitChar (run.getD k ' '))).max?

/-- Match `\d[\d\s\-]{7,}\d` at the start of `cs`; returns the match and the
remaining suffix. -/
def phoneMatchCore : List Char → Option (List Char × List Char)
  | [] => none
  | c0 :: t =>
    if isDigitChar c0 then
      match lastDigitIdxFrom7 (t.takeWhile isPhoneClassChar) with
      | some k =>
        some (c0 :: (t.takeWhile isPhoneClassChar).take (k + 1),
          (t.takeWhile isPhoneClassChar).drop (k + 1) ++
            t.drop (t.takeWhile isPhoneClassChar).length)
      | none => none
    else none

/-- Match `RE_PHONE = \+?\d[\d\s\-]{7,}\d` at the start of `cs`. -/
def phoneMatchAt (cs : List Char) : Option (List Char × List Char) :=
  match cs with
  | '+' :: t =>
    (match phoneMatchCore t with
     | some (m, rest) => some ('+' :: m, rest)
     | none => none)
  | _ => phoneMatchCore cs

theorem phoneMatchCore_rest_length :
    ∀ (cs m rest : List Char), phoneMatchCore cs = some (m, rest) →
      rest.length < cs.length := by
  intro cs m rest h
  cases cs with
  | nil => cases h
  | cons c0 t =>
    rw [phoneMatchCore] at h
    split at h
    · split at h
      · simp only [Option.some.injEq, Prod.mk.injEq] at h
        have h1 : (t.takeWhile isPhoneClassChar).length ≤ t.length :=
          (List.takeWhile_prefix _).length_le
        rw [← h.2]
        simp only [List.length_append, List.length_drop, List.length_cons]
        omega
      · cases h
    · cases h

theorem phoneMatchAt_rest_length :
    ∀ (cs m rest : List Char), phoneMatchAt cs = some (m, rest) →
      rest.length < cs.length := by
  intro cs m rest h
  unfold phoneMatchAt at h
  split at h
  · rename_i t
    cases hc : phoneMatchCore t with
    | none => rw [hc] at h; cases h
    | some p =>
      rw [hc] at h
      obtain ⟨m', rest'⟩ := p
      simp only [Option.some.injEq, Prod.mk.injEq] at h
      have := phoneMatchCore_rest_length t m' rest' hc
      rw [← h.2]
      simp only [List.length_cons]
      omega
  · exact Nat.lt_of_lt_of_le (phoneMatchCore_rest_length cs m rest h) (Nat.le_refl _)

/-- Fuel-driven scanner for `RE_PHONE.findall` (non-overlapping, left to
right, continuing after each match; on failure advance one character). -/
def phoneFindAllAux : Nat → List Char → List (List Char)
  | 0, _ => []
  | fuel + 1, cs =>
    match cs with
    | [] => []
    | c :: cs' =>
      match phoneMatchAt (c :: cs') with
      | some (m, rest) => m :: phoneFindAllAux fuel rest
      | none => phoneFindAllAux fuel cs'

/-- `RE_PHONE.findall(s)` (the pattern has no groups, so `findall` returns the
full matches). -/
def phoneFindAll (cs : List Char) : List (List Char) := phoneFindAllAux cs.length cs

example : phoneFindAll "Kontak: 082 555 1212".data = ["082 555 1212".data] := by decide
example : phoneFindAll "0821234567 en 0837654321".data =
    ["0821234567".data, "0837654321".data] := by decide

/-- Case-insensitive literal prefix match (ASCII lowering on both sides). -/
def matchLitCI : List Char → List Char → Bool
  | [], _ => true
  | _ :: _, [] => false
  | p :: ps, c :: cs => (lowerChar p == lowerChar c) && matchLitCI ps cs

/-- Case-insensitive substring search for a literal pattern. -/
def containsCI (pat : List Char) : List Char → Bool
  | [] => matchLitCI pat []
  | c :: cs => matchLitCI pat (c :: cs) || containsCI pat cs

/-- `RE_WHATS = whats\s*app|whatsapp` (IGNORECASE) matches at the start:
`whats`, any whitespace run, `app` (the second alternative is the zero-space
instance of the first). -/
def whatsAt (cs : List Char) : Bool :=
  matchLitCI "whats".data cs && matchLitCI "app".data ((cs.drop 5).dropWhile isSpaceChar)

/-- `RE_WHATS.search` as a Boolean. -/
def reWhatsSearch : List Char → Bool
  | [] => false
  | c :: cs => whatsAt (c :: cs) || reWhatsSearch cs

/-- `RE_ALT = altern|alt` (IGNORECASE) as a Boolean search: the pattern
matches somewhere iff the literal `alt` occurs. -/
def reAltSearch (cs : List Char) : Bool := containsCI "alt".data cs

/-- `RE_PRIMARY_HINT = kontak|bel|call|primary` (IGNORECASE) as a Boolean
search. -/
def rePrimarySearch (cs : List Char) : Bool :=
  containsCI "kontak".data cs || containsCI "bel".data cs ||
    containsCI "call".data cs || containsCI "primary".data cs

/-- Python `str.splitlines()` restricted to the ASCII line terminators
`\r\n`, `\n`, `\r`, `\x0b`, `\x0c` (no trailing empty chunk). -/
def splitLinesAux : List Char → List Char → List (List Char)
  | [], acc => if acc = [] then [] else [acc.reverse]
  | '\r' :: '\n' :: t, acc => acc.reverse :: splitLinesAux t []
  | c :: t, acc =>
    if c = '\n' ∨ c = '\r' ∨ c.toNat = 11 ∨ c.toNat = 12 then
      acc.reverse :: splitLinesAux t []
    else splitLinesAux t (c :: acc)

def splitLines (s : List Char) : List (List Char) := splitLinesAux s []

/-- The `(prim, wa, alt)` result triple of `parse_contact_field` (spec §3:
ContactTriple). -/
structure ContactTriple where
  prim : Option (List Char)
  wa : Option (List Char)
  alt : Option (List Char)
deriving DecidableEq, Repr

/-- Pass 1 of `parse_contact_field` (lines 101–119): label-driven
assignment; only the first phone match of a line is used, each line feeds at
most one slot, and a slot is only filled when still empty.  (The slots hold
nonempty strings whenever set, so Python's falsiness test `if not wa` is the
`Option` emptiness test.) -/
def contactPass1 (slots : ContactTriple) : List (List Char) → ContactTriple
  | [] => slots
  | ln :: rest =>
    match phoneFindAll ln with
    | [] => contactPass1 slots rest
    | ph :: _ =>
      let num := normalize_phone ph
      if reWhatsSearch ln then
        contactPass1 ⟨slots.prim,
          (if slots.wa = none then some num else slots.wa), slots.alt⟩ rest
      else if reAltSearch ln then
        contactPass1 ⟨slots.prim, slots.wa,
          (if slots.alt = none then some num else slots.alt)⟩ rest
      else if rePrimarySearch ln then
        contactPass1 ⟨(if slots.prim = none then some num else slots.prim),
          slots.wa, slots.alt⟩ rest
      else contactPass1 slots rest

/-- The non-blank stripped lines of the field (line 97). -/
def contactLines (text : List Char) : List (List Char) :=
  ((splitLines text).map stripWs).filter (fun l => !l.isEmpty)

/-- All normalized phone tokens of a list of lines, in order of appearance. -/
def toksOfLines (lines : List (List Char)) : List (List Char) :=
  lines.flatMap (fun ln => (phoneFindAll ln).map normalize_phone)

/-- Pass 2 collection (lines 120–126): every normalized token not already
equal to a populated slot, in order of appearance. -/
def contactRemaining (slots : ContactTriple) (lines : List (List Char)) :
    List (List Char) :=
  (toksOfLines lines).filter
    (fun n => !(slots.prim = some n ∨ slots.wa = some n ∨ slots.alt = some n : Bool))

/-- Pass 2 fill (lines 127–133): fill the first empty slot, in order
primary → WhatsApp → alternate. -/
def contactFill (slots : ContactTriple) : List (List Char) → ContactTriple
  | [] => slots
  | n :: rest =>
    if slots.prim = none then contactFill ⟨some n, slots.wa, slots.alt⟩ rest
    else if slots.wa = none then contactFill ⟨slots.prim, some n, slots.alt⟩ rest
    else if slots.alt = none then contactFill ⟨slots.prim, slots.wa, some n⟩ rest
    else contactFill slots rest

/-- `parse_contact_field` (lines 93–134): split into non-blank lines, run the
labeled pass over empty slots, then fill from the remaining tokens. -/
def parse_contact_field (text : List Char) : ContactTriple :=
  if text = [] then ⟨none, none, none⟩
  else
    contactFill (contactPass1 ⟨none, none, none⟩ (contactLines text))
      (contactRemaining (contactPass1 ⟨none, none, none⟩ (contactLines text))
        (contactLines text))

example :
    parse_contact_field "Kontak: 082 555 1212\nWhatsApp 083 111 2222".data =
      ⟨some "0825551212".data, some "0831112222".data, none⟩ := by decide

/-- **C9** (counterexample).  A field repeating the same unlabeled number on
three lines populates all three slots with one value: the second pass only
filters tokens against the pass-1 assignments, not against each other, so the
slots are not pairwise distinct. -/
theorem C9_contact_slots_counterexample :
    parse_contact_field "0821234567\n0821234567\n0821234567".data =
      ⟨some "0821234567".data, some "0821234567".data, some "0821234567".data⟩ := by
  decide

/-- Pairwise distinctness of the populated slots of a `ContactTriple`. -/
def slotsDistinct (s : ContactTriple) : Prop :=
  (∀ v, s.prim = some v → s.wa ≠ some v) ∧
  (∀ v, s.prim = some v → s.alt ≠ some v) ∧
  (∀ v, s.wa = some v → s.alt ≠ some v)

/-- A value held by some populated slot. -/
def slotMem (s : ContactTriple) (v : List Char) : Prop :=
  s.prim = some v ∨ s.wa = some v ∨ s.alt = some v

theorem contactPass1_cons_nil {ln : List Char} {rest : List (List Char)}
    (slots : ContactTriple) (h : phoneFindAll ln = []) :
    contactPass1 slots (ln :: rest) = contactPass1 slots rest := by
  simp only [contactPass1, h]

theorem contactPass1_cons_whats {ln ph : List Char} {t : List (List Char)}
    {tl : List (List Char)} (slots : ContactTriple)
    (h : phoneFindAll ln = ph :: tl) (hw : reWhatsSearch ln = true) :
    contactPass1 slots (ln :: t) =
      contactPass1 ⟨slots.prim,
        (if slots.wa = none then some (normalize_phone ph) else slots.wa),
        slots.alt⟩ t := by
  simp only [contactPass1, h, hw, if_true]

theorem contactPass1_cons_alt {ln ph : List Char} {t : List (List Char)}
    {tl : List (List Char)} (slots : ContactTriple)
    (h : phoneFindAll ln = ph :: tl) (hw : reWhatsSearch ln = false)
    (ha : reAltSearch ln = true) :
    contactPass1 slots (ln :: t) =
      contactPass1 ⟨slots.prim, slots.wa,
        (if slots.alt = none then some (normalize_phone ph) else slots.alt)⟩ t := by
  simp only [contactPass1, h, hw, ha, if_true, Bool.false_eq_true, if_false]

theorem contactPass1_cons_prim {ln ph : List Char} {t : List (List Char)}
    {tl : List (List Char)} (slots : ContactTriple)
    (h : phoneFindAll ln = ph :: tl) (hw : reWhatsSearch ln = false)
    (ha : reAltSearch ln = false) (hp : rePrimarySearch ln = true) :
    contactPass1 slots (ln :: t) =
      contactPass1 ⟨(if slots.prim = none then some (normalize_phone ph) else slots.prim),
        slots.wa, slots.alt⟩ t := by
  simp only [contactPass1, h, hw, ha, hp, if_true, Bool.false_eq_true, if_false]

theorem contactPass1_cons_unlabeled {ln ph : List Char} {t : List (List Char)}
    {tl : List (List Char)} (slots : ContactTriple)
    (h : phoneFindAll ln = ph :: tl) (hw : reWhatsSearch ln = false)
    (ha : reAltSearch ln = false) (hp : rePrimarySearch ln = false) :
    contactPass1 slots (ln :: t) = contactPass1 slots t := by
  simp only [contactPass1, h, hw, ha, hp, Bool.false_eq_true, if_false]

theorem contactPass1_invariant :
    ∀ (lines : List (List Char)) (slots : ContactTriple) (prev : List (List Char)),
      (∀ v, slotMem slots v → v ∈ prev) →
      (prev ++ toksOfLines lines).Nodup →
      slotsDistinct slots →
      slotsDistinct (contactPass1 slots lines) ∧
        (∀ v, slotMem (contactPass1 slots lines) v → v ∈ prev ++ toksOfLines lines) := by
  intro lines
  induction lines with
  | nil =>
    intro slots prev hmem hnd hdist
    simp only [contactPass1, toksOfLines, List.flatMap_nil, List.append_nil]
    exact ⟨hdist, hmem⟩
  | cons ln rest ih =>
    intro slots prev hmem hnd hdist
    have htl : toksOfLines (ln :: rest) =
        ((phoneFindAll ln).map normalize_phone) ++ toksOfLines rest := by
      simp [toksOfLines]
    rw [htl] at hnd ⊢
    rw [← List.append_assoc] at hnd ⊢
    cases hfa : phoneFindAll ln with
    | nil =>
      rw [hfa] at hnd
      simp only [List.map_nil, List.append_nil] at hnd ⊢
      rw [contactPass1_cons_nil slots hfa]
      exact ih slots prev hmem hnd hdist
    | cons ph tl =>
      rw [hfa] at hnd
      have hnum : normalize_phone ph ∈ List.map normalize_phone (ph :: tl) :=
        List.mem_map_of_mem _ (List.mem_cons_self _ _)
      have hnum' : normalize_phone ph ∈ prev ++ List.map normalize_phone (ph :: tl) :=
        List.mem_append_right _ hnum
      have hdisj : prev.Disjoint
          (List.map normalize_phone (ph :: tl) ++ toksOfLines rest) := by
        rw [List.append_assoc] at hnd
        exact List.disjoint_of_nodup_append hnd
      have hnum_prev : normalize_phone ph ∉ prev := fun hmp =>
        hdisj hmp (List.mem_append_left _ hnum)
      have hmem' : ∀ (s' : ContactTriple),
          (∀ v, slotMem s' v → slotMem slots v ∨ v = normalize_phone ph) →
          (∀ v, slotMem s' v → v ∈ prev ++ List.map normalize_phone (ph :: tl)) := by
        intro s' hs v hv
        rcases hs v hv with h | rfl
        · exact List.mem_append_left _ (hmem v h)
        · exact hnum'
      by_cases hw : reWhatsSearch ln = true
      · rw [contactPass1_cons_whats slots hfa hw]
        by_cases hwa : slots.wa = none
        · rw [if_pos hwa]
          apply ih
          · apply hmem'
            intro v hv
            rcases hv with h | h | h
            · exact Or.inl (Or.inl h)
            · simp only [Option.some.injEq] at h
              exact Or.inr h.symm
            · exact Or.inl (Or.inr (Or.inr h))
          · exact hnd
          · refine ⟨?_, hdist.2.1, ?_⟩
            · intro v hp hwv
              simp only [Option.some.injEq] at hwv
              exact hnum_prev (hwv ▸ hmem v (Or.inl hp))
            · intro v hwv ha
              simp only [Option.some.injEq] at hwv
              exact hnum_prev (hwv ▸ hmem v (Or.inr (Or.inr ha)))
        · rw [if_neg hwa]
          exact ih ⟨slots.prim, slots.wa, slots.alt⟩
            (prev ++ List.map normalize_phone (ph :: tl))
            (fun v hv => List.mem_append_left _ (hmem v hv)) hnd hdist
      · rw [Bool.not_eq_true] at hw
        by_cases ha : reAltSearch ln = true
        · rw [contactPass1_cons_alt slots hfa hw ha]
          by_cases hal : slots.alt = none
          · rw [if_pos hal]
            apply ih
            · apply hmem'
              intro v hv
              rcases hv with h | h | h
              · exact Or.inl (Or.inl h)
              · exact Or.inl (Or.inr (Or.inl h))
              · simp only [Option.some.injEq] at h
                exact Or.inr h.symm
            · exact hnd
            · refine ⟨hdist.1, ?_, ?_⟩
              · intro v hp hav
                simp only [Option.some.injEq] at hav
                exact hnum_prev (hav ▸ hmem v (Or.inl hp))
              · intro v hwv hav
                simp only [Option.some.injEq] at hav
                exact hnum_prev (hav ▸ hmem v (Or.inr (Or.inl hwv)))
          · rw [if_neg hal]
            exact ih ⟨slots.prim, slots.wa, slots.alt⟩
              (prev ++ List.map normalize_phone (ph :: tl))
              (fun v hv => List.mem_append_left _ (hmem v hv)) hnd hdist
        · rw [Bool.not_eq_true] at ha
          by_cases hp : rePrimarySearch ln = true
          · rw [contactPass1_cons_prim slots hfa hw ha hp]
            by_cases hpr : slots.prim = none
            · rw [if_pos hpr]
              apply ih
              · apply hmem'
                intro v hv
                rcases hv with h | h | h
                · simp only [Option.some.injEq] at h
                  exact Or.inr h.symm
                · exact Or.inl (Or.inr (Or.inl h))
                · exact Or.inl (Or.inr (Or.inr h))
              · exact hnd
              · refine ⟨?_, ?_, hdist.2.2⟩
                · intro v hpv hwv
                  simp only [Option.some.injEq] at hpv
                  exact hnum_prev (hpv ▸ hmem v (Or.inr (Or.inl hwv)))
                · intro v hpv hav
                  simp only [Option.some.injEq] at hpv
                  exact hnum_prev (hpv ▸ hmem v (Or.inr (Or.inr hav)))
            · rw [if_neg hpr]
              exact ih ⟨slots.prim, slots.wa, slots.alt⟩
                (prev ++ List.map normalize_phone (ph :: tl))
                (fun v hv => List.mem_append_left _ (hmem v hv)) hnd hdist
          · rw [Bool.not_eq_true] at hp
            rw [contactPass1_cons_unlabeled slots hfa hw ha hp]
            exact ih slots (prev ++ List.map normalize_phone (ph :: tl))
              (fun v hv => List.mem_append_left _ (hmem v hv)) hnd hdist

theorem contactFill_distinct :
    ∀ (rem : List (List Char)) (slots : ContactTriple),
      slotsDistinct slots →
      rem.Nodup →
      (∀ n ∈ rem, ¬ slotMem slots n) →
      slotsDistinct (contactFill slots rem) := by
  intro rem
  induction rem with
  | nil =>
    intro slots hd _ _
    simpa only [contactFill] using hd
  | cons n rest ih =>
    intro slots hd hnd hdisj
    have hn := hdisj n (List.mem_cons_self _ _)
    simp only [slotMem, not_or] at hn
    have hndr : rest.Nodup := (List.nodup_cons.mp hnd).2
    have hnnotin : n ∉ rest := (List.nodup_cons.mp hnd).1
    have hdisj' : ∀ (s' : ContactTriple),
        (∀ m, slotMem s' m → slotMem slots m ∨ m = n) →
        (∀ m ∈ rest, ¬ slotMem s' m) := by
      intro s' hs m hm hsm
      rcases hs m hsm with h | rfl
      · exact hdisj m (List.mem_cons_of_mem _ hm) h
      · exact hnnotin hm
    simp only [contactFill]
    by_cases hp : slots.prim = none
    · rw [if_pos hp]
      apply ih
      · refine ⟨?_, ?_, hd.2.2⟩
        · intro v hv hw
          simp only [Option.some.injEq] at hv
          exact hn.2.1 (hv ▸ hw)
        · intro v hv ha
          simp only [Option.some.injEq] at hv
          exact hn.2.2 (hv ▸ ha)
      · exact hndr
      · apply hdisj'
        intro m hm
        rcases hm with h | h | h
        · simp only [Option.some.injEq] at h
          exact Or.inr h.symm
        · exact Or.inl (Or.inr (Or.inl h))
        · exact Or.inl (Or.inr (Or.inr h))
    · rw [if_neg hp]
      by_cases hw : slots.wa = none
      · rw [if_pos hw]
        apply ih
        · refine ⟨?_, hd.2.1, ?_⟩
          · intro v hpv hwv
            simp only [Option.some.injEq] at hwv
            exact hn.1 (hwv ▸ hpv)
          · intro v hwv ha
            simp only [Option.some.injEq] at hwv
            exact hn.2.2 (hwv ▸ ha)
        · exact hndr
        · apply hdisj'
          intro m hm
          rcases hm with h | h | h
          · exact Or.inl (Or.inl h)
          · simp only [Option.some.injEq] at h
            exact Or.inr h.symm
          · exact Or.inl (Or.inr (Or.inr h))
      · rw [if_neg hw]
        by_cases ha : slots.alt = none
        · rw [if_pos ha]
          apply ih
          · refine ⟨hd.1, ?_, ?_⟩
            · intro v hpv hav
              simp only [Option.some.injEq] at hav
              exact hn.1 (hav ▸ hpv)
            · intro v hwv hav
              simp only [Option.some.injEq] at hav
              exact hn.2.1 (hav ▸ hwv)
          · exact hndr
          · apply hdisj'
            intro m hm
            rcases hm with h | h | h
            · exact Or.inl (Or.inl h)
            · exact Or.inl (Or.inr (Or.inl h))
            · simp only [Option.some.injEq] at h
              exact Or.inr h.symm
        · rw [if_neg ha]
          exact ih slots hd hndr (fun m hm => hdisj m (List.mem_cons_of_mem _ hm))

/-- **C9** (amended).  Whenever the normalized phone tokens across the
field's lines are pairwise distinct, populated slots of the returned
`ContactTriple` are pairwise distinct — in particular, when all three slots
are populated, their values are pairwise distinct.  (Unlabeled numbers fill
the first empty slot in primary → whatsapp → alternate order: that is
`contactFill`, the embedding of the source's second pass.)  Without the
token-distinctness proviso the claim fails: see the counterexample, where one
repeated unlabeled number fills all three slots. -/
theorem C9_contact_slots_amended (text : List Char)
    (hnd : (toksOfLines (contactLines text)).Nodup) :
    ∀ p w a, parse_contact_field text = ⟨some p, some w, some a⟩ →
      p ≠ w ∧ p ≠ a ∧ w ≠ a := by
  intro p w a h
  by_cases ht : text = []
  · rw [parse_contact_field, if_pos ht] at h
    cases h
  · rw [parse_contact_field, if_neg ht] at h
    have hp1 := contactPass1_invariant (contactLines text) ⟨none, none, none⟩ []
      (by intro v hv; rcases hv with h' | h' | h' <;> cases h')
      (by simpa using hnd)
      (by refine ⟨?_, ?_, ?_⟩ <;> intro v hv <;> cases hv)
    have hrem_nd : (contactRemaining (contactPass1 ⟨none, none, none⟩ (contactLines text))
        (contactLines text)).Nodup :=
      (List.filter_sublist _).nodup hnd
    have hrem_disj : ∀ n ∈ contactRemaining (contactPass1 ⟨none, none, none⟩ (contactLines text))
        (contactLines text),
        ¬ slotMem (contactPass1 ⟨none, none, none⟩ (contactLines text)) n := by
      intro n hnmem
      have := List.of_mem_filter hnmem
      simp only [Bool.not_eq_true', decide_eq_false_iff_not] at this
      intro hsm
      exact this hsm
    have hfill := contactFill_distinct _ _ hp1.1 hrem_nd hrem_disj
    rw [h] at hfill
    refine ⟨?_, ?_, ?_⟩
    · intro he
      exact hfill.1 p rfl (by rw [he])
    · intro he
      exact hfill.2.1 p rfl (by rw [he])
    · intro he
      exact hfill.2.2 w rfl (by rw [he])

/-- Witness for C9 (amended): the spec's own §8 example field, extended with
an alternate line, yields three populated, pairwise distinct slots. -/
theorem C9_contact_slots_amended_witness :
    "0825551212".data ≠ "0831112222".data ∧ "0825551212".data ≠ "0842223333".data ∧
      "0831112222".data ≠ "0842223333".data :=
  C9_contact_slots_amended
    "Kontak: 082 555 1212\nWhatsApp 083 111 2222\nAlt 084 222 3333".data
    (by decide) "0825551212".data "0831112222".data "0842223333".data (by decide)

/-! ## Comment Splitter — `split_comments`
(`clean_and_split.py` lines 172–196, with `RE_DDMM` line 22 and `RE_HHMM`
line 20) -/

/-- `\b` after a word character: the next character is absent or non-word. -/
def bEnd : List Char → Bool
  | [] => true
  | c :: _ => !isWordChar c

/-- One alternative of the slash-normalization pattern
`\b(\d{1,2}/\d{2})/\b` (line 177) with the leading digit block of length
`dlen`; returns the replacement `\1` and the rest after the match.  The final
`\b` sits after the non-word `/`, so it requires a following word
character. -/
def fuseTry : Nat → List Char → Option (List Char × List Char)
  | 2, d1 :: d2 :: '/' :: m1 :: m2 :: '/' :: rest =>
    if isDigitChar d1 && isDigitChar d2 && isDigitChar m1 && isDigitChar m2 then
      match rest with
      | c :: _ => if isWordChar c then some ([d1, d2, '/', m1, m2], rest) else none
      | [] => none
    else none
  | 1, d1 :: '/' :: m1 :: m2 :: '/' :: rest =>
    if isDigitChar d1 && isDigitChar m1 && isDigitChar m2 then
      match rest with
      | c :: _ => if isWordChar c then some ([d1, '/', m1, m2], rest) else none
      | [] => none
    else none
  | _, _ => none

/-- Match the slash-normalization pattern at the current position (`prevWord`:
whether the preceding original character is a word character, for the leading
`\b`); greedy `\d{1,2}` tries two digits before one. -/
def fuseMatchAt (prevWord : Bool) (cs : List Char) : Option (List Char × List Char) :=
  if prevWord then none
  else
    match fuseTry 2 cs with
    | some r => some r
    | none => fuseTry 1 cs

/-- Fuel-driven global `re.sub` for the slash normalization; after a match
the scan resumes after the matched text, whose last (original) character is
the dropped `/` — a non-word character. -/
def fuseSubAux : Nat → Bool → List Char → List Char
  | 0, _, cs => cs
  | _ + 1, _, [] => []
  | fuel + 1, prevWord, c :: cs =>
    match fuseMatchAt prevWord (c :: cs) with
    | some (rep, rest) => rep ++ fuseSubAux fuel false rest
    | none => c :: fuseSubAux fuel (isWordChar c) cs

/-- `re.sub(r"\b(\d{1,2}/\d{2})/\b", r"\1", t)` (line 177). -/
def fuseSub (cs : List Char) : List Char := fuseSubAux (cs.length + 1) false cs

/-- The optional year group `(?:/(\d{2,4}))?` of `RE_DDMM` followed by `\b`,
for a year of `ylen` digits; returns the rest after the whole group. -/
def ddmmYearTry (ylen : Nat) (rest : List Char) : Option (List Char) :=
  match rest with
  | '/' :: t =>
    if (t.take ylen).length = ylen && (t.take ylen).all isDigitChar && bEnd (t.drop ylen) then
      some (t.drop ylen)
    else none
  | _ => none

/-- One alternative of `RE_DDMM = \b(\d{1,2})/(\d{2})(?:/(\d{2,4}))?\b` with
leading digit block of length `dlen`: returns the collected
`f"{m.group(1)}/{m.group(2)}"` token and the rest after the full match.  The
greedy optional year group is tried first (4, then 3, then 2 digits), the
group-less alternative last. -/
def ddmmTry : Nat → List Char → Option (List Char × List Char)
  | 2, d1 :: d2 :: '/' :: m1 :: m2 :: rest =>
    if isDigitChar d1 && isDigitChar d2 && isDigitChar m1 && isDigitChar m2 then
      match ddmmYearTry 4 rest with
      | some rest' => some ([d1, d2, '/', m1, m2], rest')
      | none =>
        match ddmmYearTry 3 rest with
        | some rest' => some ([d1, d2, '/', m1, m2], rest')
        | none =>
          match ddmmYearTry 2 rest with
          | some rest' => some ([d1, d2, '/', m1, m2], rest')
          | none =>
            if bEnd rest then some ([d1, d2, '/', m1, m2], rest) else none
    else none
  | 1, d1 :: '/' :: m1 :: m2 :: rest =>
    if isDigitChar d1 && isDigitChar m1 && isDigitChar m2 then
      match ddmmYearTry 4 rest with
      | some rest' => some ([d1, '/', m1, m2], rest')
      | none =>
        match ddmmYearTry 3 rest with
        | some rest' => some ([d1, '/', m1, m2], rest')
        | none =>
          match ddmmYearTry 2 rest with
          | some rest' => some ([d1, '/', m1, m2], rest')
          | none =>
            if bEnd rest then some ([d1, '/', m1, m2], rest) else none
    else none
  | _, _ => none

/-- Match `RE_DDMM` at the current position. -/
def ddmmMatchAt (prevWord : Bool) (cs : List Char) : Option (List Char × List Char) :=
  if prevWord then none
  else
    match ddmmTry 2 cs with
    | some r => some r
    | none => ddmmTry 1 cs

/-- `RE_DDMM.finditer` collected tokens (fuel-driven; after a match the scan
resumes after the match, whose last character is a digit). -/
def ddmmFindAllAux : Nat → Bool → List Char → List (List Char)
  | 0, _, _ => []
  | _ + 1, _, [] => []
  | fuel + 1, prevWord, c :: cs =>
    match ddmmMatchAt prevWord (c :: cs) with
    | some (tok, rest) => tok :: ddmmFindAllAux fuel true rest
    | none => ddmmFindAllAux fuel (isWordChar c) cs

def ddmmFindAll (cs : List Char) : List (List Char) := ddmmFindAllAux (cs.length + 1) false cs

/-- Match `RE_HHMM = (?<!\d)(\d{4})(?!\d)` at the current position
(`prevDigit`: whether the preceding original character is a digit). -/
def hhmmMatchAt (prevDigit : Bool) (cs : List Char) : Option (List Char × List Char) :=
  if prevDigit then none
  else
    match cs with
    | a :: b :: c :: d :: rest =>
      if isDigitChar a && isDigitChar b && isDigitChar c && isDigitChar d &&
          (match rest with | e :: _ => !isDigitChar e | [] => true) then
        some ([a, b, c, d], rest)
      else none
    | _ => none

/-- `RE_HHMM.finditer` collected tokens (fuel-driven). -/
def hhmmFindAllAux : Nat → Bool → List Char → List (List Char)
  | 0, _, _ => []
  | _ + 1, _, [] => []
  | fuel + 1, prevDigit, c :: cs =>
    match hhmmMatchAt prevDigit (c :: cs) with
    | some (tok, rest) => tok :: hhmmFindAllAux fuel true rest
    | none => hhmmFindAllAux fuel (isDigitChar c) cs

def hhmmFindAll (cs : List Char) : List (List Char) := hhmmFindAllAux (cs.length + 1) false cs

/-- The `if token not in times: times.append(token)` accumulation
(lines 180–188). -/
def dedupAcc : List (List Char) → List (List Char) → List (List Char)
  | acc, [] => acc
  | acc, x :: xs => if x ∈ acc then dedupAcc acc xs else dedupAcc (acc ++ [x]) xs

/-- Fuel-driven `re.sub(rf"\b{re.escape(token)}\b", " ", cleaned)` for a
token that starts and ends with a digit (every collected token does), so both
`\b`s amount to non-word neighbours. -/
def removeTokAux : Nat → List Char → Bool → List Char → List Char
  | 0, _, _, cs => cs
  | _ + 1, _, _, [] => []
  | fuel + 1, tok, prevWord, c :: cs =>
    if !prevWord && ((c :: cs).take tok.length == tok) && bEnd ((c :: cs).drop tok.length) then
      ' ' :: removeTokAux fuel tok true ((c :: cs).drop tok.length)
    else c :: removeTokAux fuel tok (isWordChar c) cs

def removeTok (tok cs : List Char) : List Char := removeTokAux (cs.length + 1) tok false cs

/-- The removal loop (lines 190–192). -/
def removeAll (times : List (List Char)) (cleaned : List Char) : List Char :=
  times.foldl (fun cl tok => removeTok tok cl) cleaned

/-- `re.sub(r"[\r\n]+", " ", cleaned)` (line 194); the flag records whether
the previous character was part of a newline run. -/
def crlfCollapseAux : Bool → List Char → List Char
  | _, [] => []
  | inRun, c :: cs =>
    if c = '\r' ∨ c = '\n' then
      if inRun then crlfCollapseAux true cs else ' ' :: crlfCollapseAux true cs
    else c :: crlfCollapseAux false cs

def crlfCollapse (cs : List Char) : List Char := crlfCollapseAux false cs

/-- `re.sub(r"\s+", " ", cleaned)` (line 195). -/
def wsCollapseAux : Bool → List Char → List Char
  | _, [] => []
  | inRun, c :: cs =>
    if isSpaceChar c then
      if inRun then wsCollapseAux true cs else ' ' :: wsCollapseAux true cs
    else c :: wsCollapseAux false cs

def wsCollapse (cs : List Char) : List Char := wsCollapseAux false cs

/-- The collected token list of `split_comments` (lines 178–188): date tokens
first, then 4-digit time tokens, each deduplicated in order of first
appearance. -/
def split_comments_times (t : List Char) : List (List Char) :=
  dedupAcc (dedupAcc [] (ddmmFindAll t)) (hhmmFindAll t)

/-- `split_comments` (lines 172–196): `(space-joined tokens, cleaned text)`. -/
def split_comments (text : List Char) : List Char × List Char :=
  if text = [] then ([], [])
  else
    (joinSpace (split_comments_times (fuseSub text)),
     stripWs (wsCollapse (crlfCollapse
       (removeAll (split_comments_times (fuseSub text)) (fuseSub text)))))

example :
    split_comments "Called 15/08 at 0930, will call back 0945".data =
      ("15/08 0930 0945".data, "Called at , will call back".data) := by decide

/-- **C6** (counterexample).  On the comment cell `"15/08/2024"` — a date
token of the claimed `D/MM/YYYY` form — `split_comments` collects no token at
all and the year (having been fused with the month by the slash
normalization) stays in the remaining text. -/
theorem C6_date_year_counterexample :
    split_comments "15/08/2024".data = ([], "15/082024".data) := by decide

/-- **C7** (counterexample).  On `"x1234"` the time token `1234` is collected
(the lookarounds of `RE_HHMM` only exclude digit neighbours) but the
word-boundary removal pattern does not match after the letter `x`, so the
token survives in the remaining text and a second application collects it
again. -/
theorem C7_idempotence_counterexample :
    split_comments "x1234".data = ("1234".data, "x1234".data) ∧
      (split_comments (split_comments "x1234".data).2).1 ≠ [] := by decide

/-- **C6** (amended).  For a comment cell that is a standalone date token
with a year, the slash normalization deletes the slash before the year and
fuses month and year digits, so no `day/month` token is collected; for a
two-digit year `D/MM/YY` the fused four-digit month–year block is collected
as a time token and removed from the text, while for a four-digit year
`D/MM/YYYY` nothing is collected and the fused digits remain in the text
(shown for the representative family `15/08/<year>` over all year digits). -/
theorem C6_date_year_amended :
    (∀ y1 y2 : Fin 10,
      split_comments ("15/08/".data ++ [digitChar y1.val, digitChar y2.val]) =
        (['0', '8', digitChar y1.val, digitChar y2.val], "15/".data)) ∧
    (∀ y1 y2 : Fin 10,
      split_comments ("15/08/20".data ++ [digitChar y1.val, digitChar y2.val]) =
        ([], "15/0820".data ++ [digitChar y1.val, digitChar y2.val])) := by
  decide

/-! ### The second pass on digit-free remaining text -/

theorem fuseTry_none_of_no_digits :
    ∀ (dlen : Nat) (cs : List Char), (∀ c ∈ cs, isDigitChar c = false) →
      fuseTry dlen cs = none := by
  intro dlen cs h
  unfold fuseTry
  split
  · rename_i d1 d2 m1 m2 rest
    rw [h d1 (List.mem_cons_self _ _)]
    rfl
  · rename_i d1 m1 m2 rest
    rw [h d1 (List.mem_cons_self _ _)]
    rfl
  · rfl

theorem fuseMatchAt_none_of_no_digits {cs : List Char}
    (h : ∀ c ∈ cs, isDigitChar c = false) (pw : Bool) :
    fuseMatchAt pw cs = none := by
  unfold fuseMatchAt
  rw [fuseTry_none_of_no_digits 2 cs h, fuseTry_none_of_no_digits 1 cs h]
  split <;> rfl

theorem fuseSubAux_id :
    ∀ (fuel : Nat) (pw : Bool) (cs : List Char),
      (∀ c ∈ cs, isDigitChar c = false) → fuseSubAux fuel pw cs = cs := by
  intro fuel
  induction fuel with
  | zero => intro pw cs _; rfl
  | succ fuel ih =>
    intro pw cs h
    cases cs with
    | nil => rfl
    | cons c cs' =>
      simp only [fuseSubAux]
      rw [fuseMatchAt_none_of_no_digits h pw]
      rw [ih (isWordChar c) cs' (fun x hx => h x (List.mem_cons_of_mem _ hx))]

theorem fuseSub_id {cs : List Char} (h : ∀ c ∈ cs, isDigitChar c = false) :
    fuseSub cs = cs := fuseSubAux_id _ _ _ h

theorem ddmmTry_none_of_no_digits :
    ∀ (dlen : Nat) (cs : List Char), (∀ c ∈ cs, isDigitChar c = false) →
      ddmmTry dlen cs = none := by
  intro dlen cs h
  unfold ddmmTry
  split
  · rename_i d1 d2 m1 m2 rest
    rw [h d1 (List.mem_cons_self _ _)]
    rfl
  · rename_i d1 m1 m2 rest
    rw [h d1 (List.mem_cons_self _ _)]
    rfl
  · rfl

theorem ddmmMatchAt_none_of_no_digits {cs : List Char}
    (h : ∀ c ∈ cs, isDigitChar c = false) (pw : Bool) :
    ddmmMatchAt pw cs = none := by
  unfold ddmmMatchAt
  rw [ddmmTry_none_of_no_digits 2 cs h, ddmmTry_none_of_no_digits 1 cs h]
  split <;> rfl

theorem ddmmFindAllAux_nil :
    ∀ (fuel : Nat) (pw : Bool) (cs : List Char),
      (∀ c ∈ cs, isDigitChar c = false) → ddmmFindAllAux fuel pw cs = [] := by
  intro fuel
  induction fuel with
  | zero => intro pw cs _; rfl
  | succ fuel ih =>
    intro pw cs h
    cases cs with
    | nil => rfl
    | cons c cs' =>
      simp only [ddmmFindAllAux]
      rw [ddmmMatchAt_none_of_no_digits h pw]
      exact ih (isWordChar c) cs' (fun x hx => h x (List.mem_cons_of_mem _ hx))

theorem hhmmMatchAt_none_of_no_digits {cs : List Char}
    (h : ∀ c ∈ cs, isDigitChar c = false) (pd : Bool) :
    hhmmMatchAt pd cs = none := by
  unfold hhmmMatchAt
  split
  · rfl
  · split
    · rename_i a b c d rest
      rw [h a (List.mem_cons_self _ _)]
      rfl
    · rfl

theorem hhmmFindAllAux_nil :
    ∀ (fuel : Nat) (pd : Bool) (cs : List Char),
      (∀ c ∈ cs, isDigitChar c = false) → hhmmFindAllAux fuel pd cs = [] := by
  intro fuel
  induction fuel with
  | zero => intro pd cs _; rfl
  | succ fuel ih =>
    intro pd cs h
    cases cs with
    | nil => rfl
    | cons c cs' =>
      simp only [hhmmFindAllAux]
      rw [hhmmMatchAt_none_of_no_digits h pd]
      exact ih (isDigitChar c) cs' (fun x hx => h x (List.mem_cons_of_mem _ hx))

theorem split_comments_tokens_empty_of_no_digits {s : List Char}
    (h : ∀ c ∈ s, isDigitChar c = false) : (split_comments s).1 = [] := by
  unfold split_comments
  split
  · rfl
  · have hf : fuseSub s = s := fuseSub_id h
    have hd : ddmmFindAll s = [] := ddmmFindAllAux_nil _ _ _ h
    have hh : hhmmFindAll s = [] := hhmmFindAllAux_nil _ _ _ h
    simp only [split_comments_times, hf, ddmmFindAll, hhmmFindAll] at *
    rw [hd, hh]
    rfl

/-- **C7** (amended).  Applying `split_comments` to its own `remaining_text`
output yields an empty token list whenever that remaining text contains no
decimal digit.  (In general the claim fails: a 4-digit run embedded in a
word, e.g. `"x1234"`, is collected by the digit-lookaround time pattern but
not removed by the word-boundary removal pattern, and is re-collected by the
second pass — see the counterexample.) -/
theorem C7_second_pass_empty_on_digit_free (text : List Char)
    (h : ∀ c ∈ (split_comments text).2, isDigitChar c = false) :
    (split_comments (split_comments text).2).1 = [] :=
  split_comments_tokens_empty_of_no_digits h

/-- Witness for C7 (amended): the spec's §8 example cell detokenizes to a
digit-free remainder, on which the second pass finds nothing. -/
theorem C7_second_pass_empty_witness :
    (split_comments (split_comments "Called 15/08 at 0930".data).2).1 = [] :=
  C7_second_pass_empty_on_digit_free "Called 15/08 at 0930".data (by decide)

/-! ## Parent/Guardian Block Extractor — `parse_parent_details`
(`clean_and_split.py` lines 137–169, patterns lines 25–27) -/

/-- Exact-prefix test for `List Char`. -/
def headEq : List Char → List Char → Bool
  | [], _ => true
  | _ :: _, [] => false
  | p :: ps, c :: cs => (p == c) && headEq ps cs

/-- Python substring test `pat in s`. -/
def isSubstr (pat : List Char) : List Char → Bool
  | [] => pat.isEmpty
  | c :: cs => headEq pat (c :: cs) || isSubstr pat cs

/-- Consume a literal pattern case-insensitively, returning the rest. -/
def litCI : List Char → List Char → Option (List Char)
  | [], rest => some rest
  | _ :: _, [] => none
  | p :: ps, c :: cs => if lowerChar p == lowerChar c then litCI ps cs else none

/-- `RE_PARENT_NAME = Ouer/Voog\s*se\s*volle\s*naam\s*(.*)` (IGNORECASE) at
the current position; returns the `(.*)` capture (to the next newline). -/
def parentNameAt (cs : List Char) : Option (List Char) :=
  (litCI "ouer/voog".data cs).bind fun r1 =>
  (litCI "se".data (r1.dropWhile isSpaceChar)).bind fun r2 =>
  (litCI "volle".data (r2.dropWhile isSpaceChar)).bind fun r3 =>
  (litCI "naam".data (r3.dropWhile isSpaceChar)).map fun r4 =>
  (r4.dropWhile isSpaceChar).takeWhile (fun c => !(c == '\n'))

/-- `RE_PARENT_SURNAME_OF = Ouer/Voog\s*van\s*(.*)` (IGNORECASE). -/
def parentVanAt (cs : List Char) : Option (List Char) :=
  (litCI "ouer/voog".data cs).bind fun r1 =>
  (litCI "van".data (r1.dropWhile isSpaceChar)).map fun r2 =>
  (r2.dropWhile isSpaceChar).takeWhile (fun c => !(c == '\n'))

/-- `RE_PARENT_CONTACT = Kontak\s*nr\s*([\+\d][\d\s\-]+)` (IGNORECASE): the
capture is one plus-or-digit followed by the maximal nonempty run of
`[\d\s\-]`. -/
def parentKontakAt (cs : List Char) : Option (List Char) :=
  (litCI "kontak".data cs).bind fun r1 =>
  (litCI "nr".data (r1.dropWhile isSpaceChar)).bind fun r2 =>
  match r2.dropWhile isSpaceChar with
  | c :: rest =>
    if c == '+' || isDigitChar c then
      match rest.takeWhile isPhoneClassChar with
      | [] => none
      | run => some (c :: run)
    else none
  | [] => none

/-- `re.search` for a capture-returning matcher: leftmost position wins. -/
def searchCapture (matchAt : List Char → Option (List Char)) :
    List Char → Option (List Char)
  | [] => matchAt []
  | c :: cs =>
    match matchAt (c :: cs) with
    | some r => some r
    | none => searchCapture matchAt cs

def lowerStr (s : List Char) : List Char := s.map lowerChar

def upperStr (s : List Char) : List Char := s.map upperChar

/-- `parse_parent_details` (lines 137–169). -/
def parse_parent_details (text : List Char) :
    Option (List Char) × Option (List Char) :=
  if text = [] then (none, none)
  else
    let name0 : Option (List Char) :=
      match searchCapture parentNameAt text with
      | some cap =>
        if stripWs cap ≠ [] ∧ upperStr (stripWs cap) ≠ "NA".data then
          some (stripWs cap)
        else none
      | none => none
    let name1 : Option (List Char) :=
      match searchCapture parentVanAt text with
      | some cap =>
        if stripWs cap ≠ [] ∧ upperStr (stripWs cap) ≠ "NA".data then
          match name0 with
          | some n =>
            if ¬ (isSubstr (stripWs cap) n = true) then some (n ++ ' ' :: stripWs cap)
            else some n
          | none => some (stripWs cap)
        else name0
      | none => name0
    let contact0 : Option (List Char) :=
      match searchCapture parentKontakAt text with
      | some cap => some (normalize_phone cap)
      | none => none
    let contact : Option (List Char) :=
      match contact0 with
      | some c => some c
      | none =>
        match phoneFindAll text with
        | [] => none
        | ph :: _ => some (normalize_phone ph)
    (name1.map (fun n => joinSpace (wordsWs n)), contact)

example :
    parse_parent_details
      "Ouer/Voog se volle naam Maria Smit\nKontak nr 083 555 0000".data =
      (some "Maria Smit".data, some "0835550000".data) := by decide

/-! ## Column Mapper / Record Builder — `main`
(`clean_and_split.py` lines 323–651)

File reading, logging and CSV writing are external I/O; the model covers the
pure table-building: column resolution from the reconciled headers, the
per-row loop, and the three record sets.  The cohort year and the current
date are parameters (`extract_year_from_filename` / `date.today()` read the
environment). -/

/-- `d.get(col, "") if col else ""`. -/
def getOpt (d : List Char → List Char) : Option (List Char) → List Char
  | some c => d c
  | none => []

def optStr : Option (List Char) → List Char
  | some s => s
  | none => []

/-- Python `a or b` for strings: `b` when `a` is empty. -/
def orElseStr (a b : List Char) : List Char := if a = [] then b else a

/-- The `-` → `None` substitution applied to the SARS and Learners/Licence
fields (lines 550–551): the literal `None` only when the raw value is exactly
a single dash. -/
def dashNone (v : List Char) : List Char := if v = "-".data then "None".data else v

/-- `col = {h.lower(): h for h in headers}` lookup: the last header whose
lowercasing equals the key. -/
def colLookup (headers : List (List Char)) (key : List Char) : Option (List Char) :=
  (headers.filter (fun h => lowerStr h == key)).getLast?

/-- `get_col` (lines 345–354): case-insensitive exact match first, then the
first nonempty header containing the key as a substring. -/
def get_col (headers : List (List Char)) (name : List Char) : Option (List Char) :=
  match colLookup headers (lowerStr name) with
  | some h => some h
  | none =>
    (headers.filter (fun h => !(h == []) && isSubstr (lowerStr name) (lowerStr h))).head?

/-- `group_indices` (lines 414–418) looked up at a group label: the column
positions whose (nonempty) super-header equals the label. -/
def group_indices (super_headers : List (List Char)) (g : List Char) : List Nat :=
  (List.range super_headers.length).filter
    (fun i => !(super_headers.getD i [] == []) && (super_headers.getD i [] == g))

def joinNewline : List (List Char) → List Char
  | [] => []
  | [w] => w
  | w :: ws => w ++ '\n' :: joinNewline ws

/-- `group_slice_text` (lines 420–431). -/
def group_slice_text (headers super_headers : List (List Char))
    (d : List Char → List Char) (group_name : List Char) : List Char :=
  joinNewline ((((group_indices super_headers group_name).filter
    (fun i => decide (i < headers.length) &&
      !(headers.getD i [] == "R1".data) && !(headers.getD i [] == "R2".data) &&
      !(headers.getD i [] == "R3".data))).map
        (fun i => d (headers.getD i []))).filter
    (fun v => !(v == []) && !(upperStr v == "NA".data) && !(v == "-".data)))

/-- Table 1 record (`t1_fields`, lines 434–456). -/
structure T1Row where
  student_id : List Char
  id_number : List Char
  name : List Char
  surname : List Char
  dob_from_sa_id : List Char
  age_from_sa_id : List Char
  gender_from_sa_id : List Char
  address : List Char
  primary_contact : List Char
  whatsapp : List Char
  alternative : List Char
  parent_guardian_name : List Char
  parent_guardian_contact : List Char
  applicant_details : List Char
  family_details : List Char
  id_document : List Char
  bank_account : List Char
  sars_number : List Char
  learners_licence : List Char
  comment_text : List Char
  photo : List Char

/-- Table 2 record (`t2_fields`, lines 460–481). -/
structure T2Row where
  student_id : List Char
  id_number : List Char
  career_options_study_details : List Char
  academic_grouping : List Char
  academic_details_1 : List Char
  academic_details_2 : List Char
  support : List Char
  additional_support : List Char
  cv : List Char
  study_application : List Char
  w4al_course : List Char
  skills : List Char
  work_readiness_criteria : List Char
  pathways_recommendation : List Char
  yearbeyond_recommendation : List Char
  absent_from_school : List Char
  absentee_rating : List Char
  school_wr_rating : List Char
  school_wr_rating_roundup : List Char

/-- Table 3 record (`t3_fields`, lines 485–502). -/
structure T3Row where
  student_id : List Char
  id_number : List Char
  intro_session_attended : List Char
  info_session_attended : List Char
  info_form_received : List Char
  info_form_returned : List Char
  mentor_session_attended : List Char
  visits_to_office : List Char
  communication_whatsapp : List Char
  communication_facebook : List Char
  responses : List Char
  ro : List Char
  datapoints : List Char
  r1 : List Char
  r2 : List Char
  r3 : List Char

/-- The column references resolved once before the row loop
(lines 356–408). -/
structure MainCols where
  id_col : Option (List Char)
  name_col : Option (List Char)
  surname_col : Option (List Char)
  address_col : Option (List Char)
  photo_col : Option (List Char)
  contact_col : Option (List Char)
  parent_details_col : Option (List Char)
  comments_col : Option (List Char)
  applicant_details_col : Option (List Char)
  family_details_col : Option (List Char)
  id_doc_col : Option (List Char)
  bank_account_col : Option (List Char)
  sars_number_col : Option (List Char)
  learners_licence_col : Option (List Char)
  visits_office_col : Option (List Char)
  comm_whatsapp_col : Option (List Char)
  comm_facebook_col : Option (List Char)
  cv_col : Option (List Char)
  study_app_col : Option (List Char)
  w4al_course_col : Option (List Char)
  skills_col : Option (List Char)
  responses_col : Option (List Char)
  info_session_attended_col : Option (List Char)
  career_col : Option (List Char)
  academic_group_col : Option (List Char)
  academic_details_1_col : Option (List Char)
  academic_details_2_col : Option (List Char)
  pathways_col : Option (List Char)
  yearbeyond_col : Option (List Char)
  wr_rating_col : Option (List Char)
  wr_roundup_col : Option (List Char)
  absent_col : Option (List Char)
  absentee_rating_col : Option (List Char)
  intro_session_col : Option (List Char)
  info_form_received_col : Option (List Char)
  info_form_returned_col : Option (List Char)
  mentor_session_col : Option (List Char)
  r1_col : Option (List Char)
  r2_col : Option (List Char)
  r3_col : Option (List Char)

/-- `main`'s column resolution (lines 356–408). -/
def resolveCols (hs : List (List Char)) : MainCols where
  id_col :=
    match get_col hs "ID Number".data with
    | some c => some c
    | none =>
      match get_col hs "ID_Number".data with
      | some c => some c
      | none => get_col hs "ID No".data
  name_col := get_col hs "Name".data
  surname_col := get_col hs "Surname".data
  address_col := get_col hs "Address".data
  photo_col := get_col hs "Photo".data
  contact_col :=
    match get_col hs "Contact #".data with
    | some c => some c
    | none =>
      match get_col hs "Contact#".data with
      | some c => some c
      | none => get_col hs "Contact".data
  parent_details_col := get_col hs "Parent Details".data
  comments_col := get_col hs "Comments".data
  applicant_details_col := get_col hs "Applicant Details".data
  family_details_col := get_col hs "Family Details".data
  id_doc_col := get_col hs "ID".data
  bank_account_col := get_col hs "Bank Account".data
  sars_number_col := get_col hs "SARS Number".data
  learners_licence_col := get_col hs "Learners / Licence".data
  visits_office_col := get_col hs "Visits to Office".data
  comm_whatsapp_col := get_col hs "Communication WhatsApp".data
  comm_facebook_col := get_col hs "Communication Facebook".data
  cv_col := get_col hs "CV".data
  study_app_col := get_col hs "Study Application".data
  w4al_course_col := get_col hs "W4AL course".data
  skills_col := get_col hs "Skills".data
  responses_col := get_col hs "#responses".data
  info_session_attended_col := get_col hs "Info session attended".data
  career_col := get_col hs "Career Options".data
  academic_group_col := get_col hs "Academic Grouping".data
  academic_details_1_col :=
    match get_col hs "Unnamed".data with
    | some c => some c
    | none => get_col hs "Unnamed_2".data
  academic_details_2_col :=
    if (match get_col hs "Unnamed".data with
        | some c => some c
        | none => get_col hs "Unnamed_2".data) = get_col hs "Unnamed".data then
      get_col hs "Unnamed_2".data
    else get_col hs "Unnamed".data
  pathways_col := get_col hs "Pathways Recommendation".data
  yearbeyond_col := get_col hs "YearBeyond Recommendation".data
  wr_rating_col := get_col hs "School WR rating".data
  wr_roundup_col := get_col hs "School WR rating roundup".data
  absent_col := get_col hs "Absent from School".data
  absentee_rating_col := get_col hs "Absentee rating".data
  intro_session_col := get_col hs "Intro Session attended".data
  info_form_received_col := get_col hs "Info Form received".data
  info_form_returned_col := get_col hs "Info Form returned".data
  mentor_session_col := get_col hs "Mentor session attended".data
  r1_col := if "R1".data ∈ hs then some "R1".data else none
  r2_col := if "R2".data ∈ hs then some "R2".data else none
  r3_col := if "R3".data ∈ hs then some "R3".data else none

/-- The Table 1 record built for one row (lines 532–554). -/
def mainT1Row (cols : MainCols) (headers supers : List (List Char)) (today : PyDate)
    (d : List Char → List Char) (student_id id_val : List Char) : T1Row :=
  let facts := parse_sa_id_fields today id_val
  let contacts := parse_contact_field (getOpt d cols.contact_col)
  let parent := parse_parent_details (getOpt d cols.parent_details_col)
  let comments := split_comments
    (match cols.comments_col with
     | some c => d c
     | none => group_slice_text headers supers d "Comments".data)
  { student_id := student_id
    id_number := id_val
    name := getOpt d cols.name_col
    surname := getOpt d cols.surname_col
    dob_from_sa_id := facts.dob_iso
    age_from_sa_id := facts.age_str
    gender_from_sa_id := facts.gender
    address := getOpt d cols.address_col
    primary_contact := optStr contacts.prim
    whatsapp := optStr contacts.wa
    alternative := optStr contacts.alt
    parent_guardian_name := optStr parent.1
    parent_guardian_contact := optStr parent.2
    applicant_details := getOpt d cols.applicant_details_col
    family_details := getOpt d cols.family_details_col
    id_document := getOpt d cols.id_doc_col
    bank_account := getOpt d cols.bank_account_col
    sars_number := dashNone (getOpt d cols.sars_number_col)
    learners_licence := dashNone (getOpt d cols.learners_licence_col)
    comment_text := comments.2
    photo := getOpt d cols.photo_col }

/-- The Table 2 record built for one row (lines 556–582). -/
def mainT2Row (cols : MainCols) (headers supers : List (List Char))
    (d : List Char → List Char) (student_id id_val : List Char) : T2Row :=
  { student_id := student_id
    id_number := id_val
    career_options_study_details :=
      orElseStr (getOpt d cols.career_col)
        (orElseStr (group_slice_text headers supers d "Study Details".data)
          (group_slice_text headers supers d "Career Options".data))
    academic_grouping := getOpt d cols.academic_group_col
    academic_details_1 := getOpt d cols.academic_details_1_col
    academic_details_2 := getOpt d cols.academic_details_2_col
    support := group_slice_text headers supers d "Support".data
    additional_support := group_slice_text headers supers d "Additional Support".data
    cv := getOpt d cols.cv_col
    study_application := getOpt d cols.study_app_col
    w4al_course := getOpt d cols.w4al_course_col
    skills := getOpt d cols.skills_col
    work_readiness_criteria :=
      orElseStr (orElseStr (getOpt d cols.wr_roundup_col) (getOpt d cols.wr_rating_col))
        (group_slice_text headers supers d "Work Readiness Criteria".data)
    pathways_recommendation := getOpt d cols.pathways_col
    yearbeyond_recommendation := getOpt d cols.yearbeyond_col
    absent_from_school := getOpt d cols.absent_col
    absentee_rating := getOpt d cols.absentee_rating_col
    school_wr_rating := getOpt d cols.wr_rating_col
    school_wr_rating_roundup := getOpt d cols.wr_roundup_col }

/-- The Table 3 record built for one row (lines 584–619). -/
def mainT3Row (cols : MainCols) (d : List Char → List Char)
    (student_id id_val : List Char) : T3Row :=
  { student_id := student_id
    id_number := id_val
    intro_session_attended := getOpt d cols.intro_session_col
    info_session_attended := getOpt d cols.info_session_attended_col
    info_form_received := getOpt d cols.info_form_received_col
    info_form_returned := getOpt d cols.info_form_returned_col
    mentor_session_attended := getOpt d cols.mentor_session_col
    visits_to_office := getOpt d cols.visits_office_col
    communication_whatsapp := getOpt d cols.comm_whatsapp_col
    communication_facebook := getOpt d cols.comm_facebook_col
    responses := getOpt d cols.responses_col
    ro := stars_to_number (d "ro".data)
    datapoints := d "Datapoints".data
    r1 := getOpt d cols.r1_col
    r2 := getOpt d cols.r2_col
    r3 := getOpt d cols.r3_col }

/-- The row loop of `main` (lines 509–619): one record appended to each of
the three tables per input row, all three sharing the row's `student_id` and
`id_val`; the identifier registry `id_counts` is threaded through. -/
def mainRowsAux (cols : MainCols) (headers supers : List (List Char)) (today : PyDate)
    (year : Nat) (counts : List Char → Nat) (idx : Nat) :
    List (List Char → List Char) → List T1Row × List T2Row × List T3Row
  | [] => ([], [], [])
  | d :: rest =>
    let id_val := stripWs (getOpt d cols.id_col)
    let r := build_student_id (getOpt d cols.name_col) (getOpt d cols.surname_col)
      year counts idx
    (mainT1Row cols headers supers today d r.1 id_val ::
        (mainRowsAux cols headers supers today year r.2 (idx + 1) rest).1,
      mainT2Row cols headers supers d r.1 id_val ::
        (mainRowsAux cols headers supers today year r.2 (idx + 1) rest).2.1,
      mainT3Row cols d r.1 id_val ::
        (mainRowsAux cols headers supers today year r.2 (idx + 1) rest).2.2)

/-- The three output record sets built by `main` (lines 323–651) from the
reconciled headers, super headers and row dictionaries: on an empty row list
`main` returns before building any record (lines 340–342), so all three sets
are empty. -/
def mainTables (headers supers : List (List Char))
    (rows : List (List Char → List Char)) (year : Nat) (today : PyDate) :
    List T1Row × List T2Row × List T3Row :=
  match rows with
  | [] => ([], [], [])
  | d :: rest =>
    mainRowsAux (resolveCols headers) headers supers today year (fun _ => 0) 0 (d :: rest)

theorem mainRowsAux_aligned (cols : MainCols) (headers supers : List (List Char))
    (today : PyDate) (year : Nat) :
    ∀ (rows : List (List Char → List Char)) (counts : List Char → Nat) (idx : Nat),
      ((mainRowsAux cols headers supers today year counts idx rows).1.length = rows.length ∧
       (mainRowsAux cols headers supers today year counts idx rows).2.1.length = rows.length ∧
       (mainRowsAux cols headers supers today year counts idx rows).2.2.length = rows.length) ∧
      ∀ i, i < rows.length →
        ∃ r1 r2 r3,
          (mainRowsAux cols headers supers today year counts idx rows).1.get? i = some r1 ∧
          (mainRowsAux cols headers supers today year counts idx rows).2.1.get? i = some r2 ∧
          (mainRowsAux cols headers supers today year counts idx rows).2.2.get? i = some r3 ∧
          r1.student_id = r2.student_id ∧ r2.student_id = r3.student_id ∧
          r1.id_number = r2.id_number ∧ r2.id_number = r3.id_number := by
  intro rows
  induction rows with
  | nil =>
    intro counts idx
    exact ⟨⟨rfl, rfl, rfl⟩, fun i hi => absurd hi (Nat.not_lt_zero i)⟩
  | cons d rest ih =>
    intro counts idx
    have ihr := ih (build_student_id (getOpt d cols.name_col) (getOpt d cols.surname_col)
      year counts idx).2 (idx + 1)
    have hl1 := ihr.1.1
    have hl2 := ihr.1.2.1
    have hl3 := ihr.1.2.2
    constructor
    · refine ⟨?_, ?_, ?_⟩ <;>
        · show _ + 1 = rest.length + 1
          omega
    · intro i hi
      cases i with
      | zero =>
        exact ⟨_, _, _, rfl, rfl, rfl, rfl, rfl, rfl, rfl⟩
      | succ i =>
        have hi' : i < rest.length := by
          simp only [List.length_cons] at hi
          omega
        obtain ⟨r1, r2, r3, h1, h2, h3, e1, e2, e3, e4⟩ := ihr.2 i hi'
        exact ⟨r1, r2, r3, h1, h2, h3, e1, e2, e3, e4⟩

/-- **C2.**  For every input row count (including zero), the three output
record sets built by `main` each have length equal to the number of input
data rows, and at each position the three records carry the same
`Student_ID` and `ID_Number` values (positional alignment). -/
theorem C2_three_tables_row_alignment (headers supers : List (List Char))
    (rows : List (List Char → List Char)) (year : Nat) (today : PyDate) :
    ((mainTables headers supers rows year today).1.length = rows.length ∧
     (mainTables headers supers rows year today).2.1.length = rows.length ∧
     (mainTables headers supers rows year today).2.2.length = rows.length) ∧
    ∀ i, i < rows.length →
      ∃ r1 r2 r3,
        (mainTables headers supers rows year today).1.get? i = some r1 ∧
        (mainTables headers supers rows year today).2.1.get? i = some r2 ∧
        (mainTables headers supers rows year today).2.2.get? i = some r3 ∧
        r1.student_id = r2.student_id ∧ r2.student_id = r3.student_id ∧
        r1.id_number = r2.id_number ∧ r2.id_number = r3.id_number := by
  cases rows with
  | nil => exact ⟨⟨rfl, rfl, rfl⟩, fun i hi => absurd hi (Nat.not_lt_zero i)⟩
  | cons d rest =>
    exact mainRowsAux_aligned (resolveCols headers) headers supers today year
      (d :: rest) (fun _ => 0) 0

/-- Witness for C2 at a one-row concrete input. -/
theorem C2_three_tables_row_alignment_witness :
    ∃ r1 r2 r3,
      (mainTables [] [] [fun _ => []] 2024 ⟨2025, 10, 12⟩).1.get? 0 = some r1 ∧
      (mainTables [] [] [fun _ => []] 2024 ⟨2025, 10, 12⟩).2.1.get? 0 = some r2 ∧
      (mainTables [] [] [fun _ => []] 2024 ⟨2025, 10, 12⟩).2.2.get? 0 = some r3 ∧
      r1.student_id = r2.student_id ∧ r2.student_id = r3.student_id ∧
      r1.id_number = r2.id_number ∧ r2.id_number = r3.id_number :=
  (C2_three_tables_row_alignment [] [] [fun _ => []] 2024 ⟨2025, 10, 12⟩).2 0
    (by simp)
